import Mathlib

/-
Verification development for the SME model-atmosphere interpolation module
(src/sme/interpolate_atmosphere.py).

The embedding is shallow: the numerical routines are translated into
executable Lean functions over ℚ (real arithmetic in the source carries no
rounding-specific behaviour relevant to the claims, so exact rational
arithmetic is used).  The transcendental pair log10 / 10^x, which the source
applies only as an order-preserving change of scale, is abstracted as a pair
of function parameters (lg, pw); theorems assume StrictMono where needed and
concrete instances use the identity.  scipy.optimize.curve_fit is an external
black box: the fitted parameter vectors it returns are modelled as an
arbitrary input (an oracle function pars), and the least-squares objective it
minimises is embedded explicitly (chi2) so that statements about the
optimisation problem itself can be made.
-/

namespace SMEInterp

/-! ### List minimum / maximum (np.min, np.max over nonempty vectors) -/

/-- Maximum of a list of rationals, as an option (none for the empty list,
where np.max raises). -/
def listMax? : List ℚ → Option ℚ
  | [] => none
  | x :: xs => some (xs.foldl max x)

/-- Minimum of a list of rationals, as an option. -/
def listMin? : List ℚ → Option ℚ
  | [] => none
  | x :: xs => some (xs.foldl min x)

/-- Total version of listMax? defaulting to 0; used where the source
guarantees a nonempty vector. -/
def listMaxQ (l : List ℚ) : ℚ := (listMax? l).getD 0

/-- Total version of listMin? defaulting to 0. -/
def listMinQ (l : List ℚ) : ℚ := (listMin? l).getD 0

theorem le_foldl_max (xs : List ℚ) : ∀ acc : ℚ, acc ≤ xs.foldl max acc := by
  induction xs with
  | nil => intro acc; simp
  | cons x xs ih =>
    intro acc
    have h1 : acc ≤ max acc x := le_max_left _ _
    exact le_trans h1 (ih (max acc x))

theorem mem_le_foldl_max (xs : List ℚ) : ∀ acc y : ℚ, y ∈ xs → y ≤ xs.foldl max acc := by
  induction xs with
  | nil => intro acc y hy; simp at hy
  | cons x xs ih =>
    intro acc y hy
    rcases List.mem_cons.mp hy with h | h
    · subst h
      exact le_trans (le_max_right acc y) (le_foldl_max xs (max acc y))
    · exact ih (max acc x) y h

theorem foldl_max_mem (xs : List ℚ) : ∀ acc : ℚ, xs.foldl max acc = acc ∨ xs.foldl max acc ∈ xs := by
  induction xs with
  | nil => intro acc; left; rfl
  | cons x xs ih =>
    intro acc
    rcases ih (max acc x) with h | h
    · rcases max_cases acc x with ⟨h2, _⟩ | ⟨h2, _⟩
      · left; rw [List.foldl_cons, h, h2]
      · right; rw [List.foldl_cons, h, h2]; exact List.mem_cons_self x xs
    · right; exact List.mem_cons_of_mem x h

theorem foldl_min_le (xs : List ℚ) : ∀ acc : ℚ, xs.foldl min acc ≤ acc := by
  induction xs with
  | nil => intro acc; simp
  | cons x xs ih =>
    intro acc
    exact le_trans (ih (min acc x)) (min_le_left _ _)

theorem foldl_min_le_mem (xs : List ℚ) : ∀ acc y : ℚ, y ∈ xs → xs.foldl min acc ≤ y := by
  induction xs with
  | nil => intro acc y hy; simp at hy
  | cons x xs ih =>
    intro acc y hy
    rcases List.mem_cons.mp hy with h | h
    · subst h
      exact le_trans (foldl_min_le xs (min acc y)) (min_le_right acc y)
    · exact ih (min acc x) y h

theorem foldl_min_mem (xs : List ℚ) : ∀ acc : ℚ, xs.foldl min acc = acc ∨ xs.foldl min acc ∈ xs := by
  induction xs with
  | nil => intro acc; left; rfl
  | cons x xs ih =>
    intro acc
    rcases ih (min acc x) with h | h
    · rcases min_cases acc x with ⟨h2, _⟩ | ⟨h2, _⟩
      · left; rw [List.foldl_cons, h, h2]
      · right; rw [List.foldl_cons, h, h2]; exact List.mem_cons_self x xs
    · right; exact List.mem_cons_of_mem x h

theorem listMax?_mem (l : List ℚ) (m : ℚ) (h : listMax? l = some m) : m ∈ l := by
  cases l with
  | nil => simp [listMax?] at h
  | cons x xs =>
    simp only [listMax?, Option.some.injEq] at h
    rcases foldl_max_mem xs x with h2 | h2
    · rw [← h, h2]; exact List.mem_cons_self x xs
    · rw [← h]; exact List.mem_cons_of_mem x h2

theorem listMin?_mem (l : List ℚ) (m : ℚ) (h : listMin? l = some m) : m ∈ l := by
  cases l with
  | nil => simp [listMin?] at h
  | cons x xs =>
    simp only [listMin?, Option.some.injEq] at h
    rcases foldl_min_mem xs x with h2 | h2
    · rw [← h, h2]; exact List.mem_cons_self x xs
    · rw [← h]; exact List.mem_cons_of_mem x h2

theorem le_listMax? (l : List ℚ) (m y : ℚ) (h : listMax? l = some m) (hy : y ∈ l) : y ≤ m := by
  cases l with
  | nil => simp at hy
  | cons x xs =>
    simp only [listMax?, Option.some.injEq] at h
    rcases List.mem_cons.mp hy with h2 | h2
    · rw [← h, h2]; exact le_foldl_max xs x
    · rw [← h]; exact mem_le_foldl_max xs x y h2

theorem listMin?_le (l : List ℚ) (m y : ℚ) (h : listMin? l = some m) (hy : y ∈ l) : m ≤ y := by
  cases l with
  | nil => simp at hy
  | cons x xs =>
    simp only [listMin?, Option.some.injEq] at h
    rcases List.mem_cons.mp hy with h2 | h2
    · rw [← h, h2]; exact foldl_min_le xs x
    · rw [← h]; exact foldl_min_le_mem xs x y h2

theorem listMax?_eq_of (l : List ℚ) (m : ℚ) (hm : m ∈ l) (hub : ∀ y ∈ l, y ≤ m) :
    listMax? l = some m := by
  cases l with
  | nil => simp at hm
  | cons x xs =>
    simp only [listMax?, Option.some.injEq]
    have h1 : xs.foldl max x ≤ m := by
      rcases foldl_max_mem xs x with h | h
      · rw [h]; exact hub x (List.mem_cons_self x xs)
      · exact hub _ (List.mem_cons_of_mem x h)
    have h2 : m ≤ xs.foldl max x := by
      rcases List.mem_cons.mp hm with h | h
      · rw [h]; exact le_foldl_max xs x
      · exact mem_le_foldl_max xs x m h
    exact le_antisymm h1 h2

theorem listMin?_eq_of (l : List ℚ) (m : ℚ) (hm : m ∈ l) (hlb : ∀ y ∈ l, m ≤ y) :
    listMin? l = some m := by
  cases l with
  | nil => simp at hm
  | cons x xs =>
    simp only [listMin?, Option.some.injEq]
    have h1 : m ≤ xs.foldl min x := by
      rcases foldl_min_mem xs x with h | h
      · rw [h]; exact hlb x (List.mem_cons_self x xs)
      · exact hlb _ (List.mem_cons_of_mem x h)
    have h2 : xs.foldl min x ≤ m := by
      rcases List.mem_cons.mp hm with h | h
      · rw [h]; exact foldl_min_le xs x
      · exact foldl_min_le_mem xs x m h
    exact le_antisymm h2 h1

/-! ### Linear interpolation with extrapolation

Embedding of scipy.interpolate.interp1d with kind="linear" and
fill_value="extrapolate", as used by interp_atmo_func: piecewise-linear
through the knots, extended beyond the first / last knot by the first / last
segment. -/

/-- Value at t of the line through (x0, y0) and (x1, y1). -/
def lerp (x0 y0 x1 y1 t : ℚ) : ℚ := y0 + (y1 - y0) * (t - x0) / (x1 - x0)

/-- Piecewise-linear interpolation through a knot list, extrapolating with the
end segments (scipy interp1d, kind linear, fill_value extrapolate). -/
def interpLin : List (ℚ × ℚ) → ℚ → ℚ
  | [], _ => 0
  | [p], _ => p.2
  | p :: q :: r, t =>
    if r = [] ∨ t ≤ q.1 then lerp p.1 p.2 q.1 q.2 t
    else interpLin (q :: r) t

theorem lerp_left (x0 y0 x1 y1 : ℚ) : lerp x0 y0 x1 y1 x0 = y0 := by
  unfold lerp
  simp

theorem lerp_right (x0 y0 x1 y1 : ℚ) (h : x0 ≠ x1) : lerp x0 y0 x1 y1 x1 = y1 := by
  unfold lerp
  rw [mul_div_assoc, div_self (sub_ne_zero.mpr (Ne.symm h)), mul_one]
  ring

theorem lerp_lt_lerp (x0 y0 x1 y1 t u : ℚ) (hx : x0 < x1) (hy : y0 < y1) (ht : t < u) :
    lerp x0 y0 x1 y1 t < lerp x0 y0 x1 y1 u := by
  have hne : x1 - x0 ≠ 0 := ne_of_gt (by linarith)
  have key : lerp x0 y0 x1 y1 u - lerp x0 y0 x1 y1 t = (y1 - y0) * (u - t) / (x1 - x0) := by
    unfold lerp
    field_simp
    ring
  have hpos : 0 < (y1 - y0) * (u - t) / (x1 - x0) :=
    div_pos (mul_pos (by linarith) (by linarith)) (by linarith)
  linarith

theorem interpLin_first (p q : ℚ × ℚ) (r : List (ℚ × ℚ)) (hpq : p.1 < q.1) :
    interpLin (p :: q :: r) p.1 = p.2 := by
  have : interpLin (p :: q :: r) p.1 = lerp p.1 p.2 q.1 q.2 p.1 := by
    simp only [interpLin]
    rw [if_pos (Or.inr (le_of_lt hpq))]
  rw [this, lerp_left]

/-- Strict monotonicity of piecewise-linear interpolation through knots whose
abscissae and ordinates are both strictly increasing. -/
theorem interpLin_strictMono (pts : List (ℚ × ℚ)) (hlen : 2 ≤ pts.length)
    (hx : pts.Chain' (fun a b => a.1 < b.1)) (hy : pts.Chain' (fun a b => a.2 < b.2)) :
    StrictMono (interpLin pts) := by
  induction pts with
  | nil => simp at hlen
  | cons p rest ih =>
    cases rest with
    | nil => simp at hlen
    | cons q r =>
      intro t u htu
      have hpq1 : p.1 < q.1 := (List.chain'_cons.mp hx).1
      have hpq2 : p.2 < q.2 := (List.chain'_cons.mp hy).1
      cases r with
      | nil =>
        simp only [interpLin, if_pos (Or.inl rfl)]
        exact lerp_lt_lerp _ _ _ _ _ _ hpq1 hpq2 htu
      | cons s r2 =>
        have hxs : (q :: s :: r2).Chain' (fun a b => a.1 < b.1) := (List.chain'_cons.mp hx).2
        have hys : (q :: s :: r2).Chain' (fun a b => a.2 < b.2) := (List.chain'_cons.mp hy).2
        have hqs1 : q.1 < s.1 := (List.chain'_cons.mp hxs).1
        have htail : StrictMono (interpLin (q :: s :: r2)) := ih (by simp) hxs hys
        have hne : ¬ (s :: r2 = ([] : List (ℚ × ℚ))) := by simp
        by_cases h1 : u ≤ q.1
        · have h0 : t ≤ q.1 := le_of_lt (lt_of_lt_of_le htu h1)
          simp only [interpLin]
          rw [if_pos (Or.inr h0), if_pos (Or.inr h1)]
          exact lerp_lt_lerp _ _ _ _ _ _ hpq1 hpq2 htu
        · push_neg at h1
          by_cases h0 : t ≤ q.1
          · have e1 : interpLin (p :: q :: s :: r2) t = lerp p.1 p.2 q.1 q.2 t := by
              simp only [interpLin]
              rw [if_pos (Or.inr h0)]
            have e2 : interpLin (p :: q :: s :: r2) u = interpLin (q :: s :: r2) u := by
              simp only [interpLin]
              rw [if_neg (by push_neg; exact ⟨hne, h1⟩)]
            have hstep : lerp p.1 p.2 q.1 q.2 t ≤ q.2 := by
              rcases lt_or_eq_of_le h0 with h | h
              · have h2 := lerp_lt_lerp p.1 p.2 q.1 q.2 t q.1 hpq1 hpq2 h
                rw [lerp_right p.1 p.2 q.1 q.2 (ne_of_lt hpq1)] at h2
                exact le_of_lt h2
              · rw [h, lerp_right p.1 p.2 q.1 q.2 (ne_of_lt hpq1)]
            have htail2 : q.2 < interpLin (q :: s :: r2) u := by
              have h3 := htail h1
              rwa [interpLin_first q s r2 hqs1] at h3
            rw [e1, e2]
            linarith
          · push_neg at h0
            have e1 : interpLin (p :: q :: s :: r2) t = interpLin (q :: s :: r2) t := by
              simp only [interpLin]
              rw [if_neg (by push_neg; exact ⟨hne, h0⟩)]
            have e2 : interpLin (p :: q :: s :: r2) u = interpLin (q :: s :: r2) u := by
              simp only [interpLin]
              rw [if_neg (by push_neg; exact ⟨hne, h1⟩)]
            rw [e1, e2]
            exact htail htu

/-! ### Chain' preservation lemmas -/

theorem chain'_lt_map (f : ℚ → ℚ) (hf : StrictMono f) (l : List ℚ)
    (h : l.Chain' (· < ·)) : (l.map f).Chain' (· < ·) :=
  (List.chain'_map f).mpr (h.imp fun _ _ hab => hf hab)

theorem chain'_lt_zipWith (f : ℚ → ℚ → ℚ)
    (hf : ∀ a a' b b', a < a' → b < b' → f a b < f a' b') :
    ∀ l1 l2 : List ℚ, l1.Chain' (· < ·) → l2.Chain' (· < ·) →
      (List.zipWith f l1 l2).Chain' (· < ·) := by
  intro l1
  induction l1 with
  | nil => intro l2 _ _; simp
  | cons a l1t ih =>
    intro l2 h1 h2
    cases l2 with
    | nil => simp
    | cons b l2t =>
      cases l1t with
      | nil => simp
      | cons a2 l1tt =>
        cases l2t with
        | nil => simp
        | cons b2 l2tt =>
          have hh := ih (b2 :: l2tt) (List.chain'_cons.mp h1).2 (List.chain'_cons.mp h2).2
          simp only [List.zipWith] at hh ⊢
          exact List.chain'_cons.mpr
            ⟨hf _ _ _ _ (List.chain'_cons.mp h1).1 (List.chain'_cons.mp h2).1, hh⟩

theorem chain'_zip_fst (l1 l2 : List ℚ) (h : l1.Chain' (· < ·)) :
    (l1.zip l2).Chain' (fun a b : ℚ × ℚ => a.1 < b.1) := by
  induction l1 generalizing l2 with
  | nil => simp
  | cons a l1t ih =>
    cases l2 with
    | nil => simp
    | cons b l2t =>
      cases l1t with
      | nil => simp
      | cons a2 l1tt =>
        cases l2t with
        | nil => simp
        | cons b2 l2tt =>
          have hh := ih (b2 :: l2tt) (List.chain'_cons.mp h).2
          simp only [List.zip_cons_cons] at hh ⊢
          exact List.chain'_cons.mpr ⟨(List.chain'_cons.mp h).1, hh⟩

theorem chain'_zip_snd (l1 l2 : List ℚ) (h : l2.Chain' (· < ·)) :
    (l1.zip l2).Chain' (fun a b : ℚ × ℚ => a.2 < b.2) := by
  induction l1 generalizing l2 with
  | nil => simp
  | cons a l1t ih =>
    cases l2 with
    | nil => simp
    | cons b l2t =>
      cases l1t with
      | nil => simp
      | cons a2 l1tt =>
        cases l2t with
        | nil => simp
        | cons b2 l2tt =>
          have hh := ih (b2 :: l2tt) (List.chain'_cons.mp h).2
          simp only [List.zip_cons_cons] at hh ⊢
          exact List.chain'_cons.mpr ⟨(List.chain'_cons.mp h).1, hh⟩

/-! ### interp_atmo_func

Embedding of interp_atmo_func(x1, par, ndep, x2, y2, y1?): shift x2 by p0 and
y2 by p1, linearly interpolate (with extrapolation) at the first ndep points
of x1, rescale about the midpoint of the interpolated range by (1 + p2), clip
to the range of the reference y1 when supplied, and leave entries past ndep
at zero (y1 = np.zeros_like(x1); y1[:ndep] = ...). -/

/-- The shifted, interpolated, rescaled and optionally clipped curve of
interp_atmo_func.  p0, p1, p2 are par[0], par[1], par[2]; par[3] is unused by
the source.  clipRef models the optional kwargs y1. -/
def interpAtmoFunc (x1 : List ℚ) (p0 p1 p2 : ℚ) (x2 y2 : List ℚ) (ndep : ℕ)
    (clipRef : Option (List ℚ)) : List ℚ :=
  let pts := (x2.map (fun x => x + p0)).zip (y2.map (fun y => y + p1))
  let head := (x1.take ndep).map (fun t => interpLin pts t)
  let cen := (listMinQ head + listMaxQ head) / 2
  let scaled := head.map (fun y => cen + (1 + p2) * (y - cen))
  let clipped := match clipRef with
    | none => scaled
    | some yref => scaled.map (fun y => min (listMaxQ yref) (max (listMinQ yref) y))
  clipped ++ List.replicate (x1.length - ndep) 0

theorem interpAtmoFunc_length (x1 : List ℚ) (p0 p1 p2 : ℚ) (x2 y2 : List ℚ) (ndep : ℕ)
    (clipRef : Option (List ℚ)) :
    (interpAtmoFunc x1 p0 p1 p2 x2 y2 ndep clipRef).length = max ndep x1.length - (ndep - x1.length) := by
  unfold interpAtmoFunc
  cases clipRef <;> simp [List.length_take] <;> omega

/-- With the full point count and no clipping (the production call in
interp_atmo_pair), interp_atmo_func with zero scale term is plain linear
interpolation of the shifted reference curve at every output point. -/
theorem interpAtmoFunc_zero_scale (x1 : List ℚ) (p0 p1 : ℚ) (x2 y2 : List ℚ) :
    interpAtmoFunc x1 p0 p1 0 x2 y2 x1.length none =
      x1.map (fun t => interpLin ((x2.map (fun x => x + p0)).zip (y2.map (fun y => y + p1))) t) := by
  unfold interpAtmoFunc
  have h1 : ∀ cen y : ℚ, cen + (1 + 0) * (y - cen) = y := by intro cen y; ring
  simp [List.take_length, h1]

/-! ### interp_atmo_constrained: data assembly and least-squares objective

interp_atmo_constrained appends one synthetic (x = 0, y = 0) data point per
nonzero entry of the constraints vector, with the constraint value as its
uncertainty, then hands the extended data to scipy.optimize.curve_fit, whose
objective is the weighted sum of squared residuals chi2.  The parinfo
argument (the fixed-parameter mask built by interp_atmo_pair) is accepted via
kwargs but never read: all four parameters reach curve_fit free. -/

/-- Weighted sum of squared residuals: the objective minimised by
curve_fit(f, x, y, sigma = err). -/
def chi2 : List ℚ → List ℚ → List ℚ → ℚ
  | y :: ys, m :: ms, e :: es => ((y - m) / e) ^ 2 + chi2 ys ms es
  | _, _, _ => 0

/-- The (x, y, err) triple that interp_atmo_constrained passes to curve_fit:
the input data extended by one synthetic zero point per nonzero constraint. -/
def appendConstraints (xin yin errin constraints : List ℚ) :
    List ℚ × List ℚ × List ℚ :=
  let cs := constraints.filter (fun c => decide (c ≠ 0))
  if cs.length = 0 then (xin, yin, errin)
  else (xin ++ List.replicate cs.length 0, yin ++ List.replicate cs.length 0, errin ++ cs)

theorem chi2_append (y1 m1 e1 y2 m2 e2 : List ℚ)
    (hm : m1.length = y1.length) (he : e1.length = y1.length) :
    chi2 (y1 ++ y2) (m1 ++ m2) (e1 ++ e2) = chi2 y1 m1 e1 + chi2 y2 m2 e2 := by
  induction y1 generalizing m1 e1 with
  | nil =>
    cases m1 with
    | nil =>
      cases e1 with
      | nil => simp [chi2]
      | cons a b => simp at he
    | cons a b => simp at hm
  | cons y ys ih =>
    cases m1 with
    | nil => simp at hm
    | cons m ms =>
      cases e1 with
      | nil => simp at he
      | cons e es =>
        simp only [List.cons_append, chi2, List.append_eq]
        rw [ih ms es (by simpa using hm) (by simpa using he)]
        ring

theorem chi2_synthetic_zero (cs : List ℚ) (k : ℕ) :
    chi2 (List.replicate k 0) (List.replicate k 0) cs = 0 := by
  induction k generalizing cs with
  | zero => simp [chi2]
  | succ n ih =>
    cases cs with
    | nil => simp [List.replicate_succ, chi2]
    | cons c cst => simp [List.replicate_succ, chi2, ih]

/-! ### Top-of-atmosphere trim loop

Embedding of the while loops in interp_atmo_pair that advance itop while
consecutive fractional steps of the depth vector are at most the minimum
(0.01 for both RHOX and TAU):

    while atmo.rhox[itop + 1] / atmo.rhox[itop] - 1 <= min_drhox: itop += 1

The loop has no bounds check: when no remaining step exceeds the threshold it
reads past the end of the vector and numpy raises IndexError, which the
embedding models as an error result.  The fuel argument only bounds the
recursion; it never runs out before the out-of-bounds access (the index grows
by one per step). -/

def trimTopAux (xs : List ℚ) (minStep : ℚ) : ℕ → ℕ → Except String ℕ
  | 0, _ => Except.error "IndexError: index out of bounds"
  | fuel + 1, i =>
    if i + 1 < xs.length then
      if xs.getD (i + 1) 0 / xs.getD i 0 - 1 ≤ minStep then
        trimTopAux xs minStep fuel (i + 1)
      else Except.ok i
    else Except.error "IndexError: index out of bounds"

/-- The trim loop: first index at or after itop whose fractional step exceeds
minStep, or the IndexError the source runs into when no such index exists. -/
def trimTop (xs : List ℚ) (minStep : ℚ) (itop : ℕ) : Except String ℕ :=
  trimTopAux xs minStep (xs.length + 1) itop

theorem trimTopAux_ok (xs : List ℚ) (minStep : ℚ) :
    ∀ fuel i, ∀ j, i ≤ j → j + 1 < xs.length →
      minStep < xs.getD (j + 1) 0 / xs.getD j 0 - 1 →
      xs.length + 1 ≤ fuel + i →
      ∃ k, trimTopAux xs minStep fuel i = Except.ok k ∧ i ≤ k ∧ k + 1 < xs.length ∧
        minStep < xs.getD (k + 1) 0 / xs.getD k 0 - 1 := by
  intro fuel
  induction fuel with
  | zero => intro i j hij hj _ hfuel; omega
  | succ n ih =>
    intro i j hij hj hstep hfuel
    have hi : i + 1 < xs.length := by omega
    by_cases hcase : xs.getD (i + 1) 0 / xs.getD i 0 - 1 ≤ minStep
    · have hne : i ≠ j := by
        intro h
        subst h
        exact absurd hstep (not_lt.mpr hcase)
      have hij2 : i + 1 ≤ j := by omega
      obtain ⟨k, hk⟩ := ih (i + 1) j hij2 hj hstep (by omega)
      refine ⟨k, ?_, by omega, hk.2.2.1, hk.2.2.2⟩
      simp only [trimTopAux, if_pos hi, if_pos hcase]
      exact hk.1
    · refine ⟨i, ?_, le_refl i, hi, not_le.mp hcase⟩
      simp only [trimTopAux, if_pos hi, if_neg hcase]

theorem trimTopAux_error (xs : List ℚ) (minStep : ℚ) :
    ∀ fuel i, (∀ j, i ≤ j → j + 1 < xs.length →
        xs.getD (j + 1) 0 / xs.getD j 0 - 1 ≤ minStep) →
      trimTopAux xs minStep fuel i = Except.error "IndexError: index out of bounds" := by
  intro fuel
  induction fuel with
  | zero => intro i _; rfl
  | succ n ih =>
    intro i hall
    by_cases hi : i + 1 < xs.length
    · have hstep := hall i (le_refl i) hi
      simp only [trimTopAux, if_pos hi, if_pos hstep]
      exact ih (i + 1) (fun j hj hjl => hall j (by omega) hjl)
    · simp only [trimTopAux, if_neg hi]

theorem trimTop_ok_bounds (xs : List ℚ) (minStep : ℚ) (itop k : ℕ)
    (h : trimTop xs minStep itop = Except.ok k) : itop ≤ k ∧ k + 1 < xs.length := by
  unfold trimTop at h
  generalize hfuel : xs.length + 1 = fuel at h
  clear hfuel
  induction fuel generalizing itop with
  | zero => simp [trimTopAux] at h
  | succ n ih =>
    by_cases hi : itop + 1 < xs.length
    · by_cases hcase : xs.getD (itop + 1) 0 / xs.getD itop 0 - 1 ≤ minStep
      · simp only [trimTopAux, if_pos hi, if_pos hcase] at h
        have := ih (itop + 1) h
        omega
      · simp only [trimTopAux, if_pos hi, if_neg hcase] at h
        cases h
        omega
    · simp only [trimTopAux, if_neg hi] at h
      exact Except.noConfusion h

/-! ### Interpolation variable selection (interp_atmo_pair, lines 110-125)

The Python signature defaults interpvar to the empty string, while the
auto-selection branch tests "interpvar is None"; the caller-omitted value is
modelled as some "" and Python None as none. -/

/-- Validation of the interpolation variable against the two legal values. -/
def validateIv (iv : String) : Except String String :=
  if iv = "TAU" ∨ iv = "RHOX" then Except.ok iv
  else Except.error "interpvar must be TAU (default) or RHOX"

/-- Availability check, optional auto-selection and validation of the
interpolation variable, in source order: first the shared-depth-scale check
(raise if neither RHOX nor TAU is in both atmospheres), then auto-selection
only when interpvar is None, then validation against TAU / RHOX. -/
def selectInterpvar (interpvar : Option String) (okTau okRhox : Bool) :
    Except String String :=
  if !okTau && !okRhox then
    Except.error "atmo1 and atmo2 structures must both contain RHOX or TAU"
  else
    validateIv (match interpvar with
      | none => if okTau then "TAU" else "RHOX"
      | some s => s)

theorem validateIv_ok (iv v : String) (h : validateIv iv = Except.ok v) :
    v = "TAU" ∨ v = "RHOX" := by
  unfold validateIv at h
  split_ifs at h with h2
  all_goals first
    | exact Except.noConfusion h
    | (cases h; exact h2)

theorem selectInterpvar_ok (interpvar : Option String) (okTau okRhox : Bool) (v : String)
    (h : selectInterpvar interpvar okTau okRhox = Except.ok v) :
    v = "TAU" ∨ v = "RHOX" := by
  unfold selectInterpvar at h
  by_cases h1 : (!okTau && !okRhox) = true
  · rw [if_pos h1] at h
    exact Except.noConfusion h
  · rw [if_neg h1] at h
    exact validateIv_ok _ _ h

/-! ### Atmosphere records

A fixed schema covering the fields interp_atmo_pair reads and writes: the
two depth vectors (optional: a structure may carry RHOX, TAU or both), the
four physical quantity vectors, the abundance vector, the blended scalar
fields (stags) and the depth-point count NDEP.  Reference atmospheres in the
grid are instances of this schema. -/

structure PyAtmo where
  rhox : Option (List ℚ)
  tau : Option (List ℚ)
  temp : List ℚ
  xne : List ℚ
  xna : List ℚ
  rho : List ℚ
  abund : List ℚ
  teff : ℚ
  logg : ℚ
  monh : ℚ
  vturb : ℚ
  lonh : ℚ
  ndep : ℕ
deriving DecidableEq

/-- Field lookup by tag name (the dynamic atmo[vtag] access of the source). -/
def getVec (a : PyAtmo) : String → Option (List ℚ)
  | "RHOX" => a.rhox
  | "TAU" => a.tau
  | "TEMP" => some a.temp
  | "XNE" => some a.xne
  | "XNA" => some a.xna
  | "RHO" => some a.rho
  | _ => none

/-- The list of atmosphere vectors that are shift-fitted and blended
(interp_atmo_pair, lines 169-174): TEMP first, then XNE, XNA, RHO, the
interpolation variable, and the other depth variable when both atmospheres
carry it. -/
def vtagsOf (okTau okRhox : Bool) (iv : String) : List String :=
  ["TEMP", "XNE", "XNA", "RHO", iv]
    ++ (if iv = "RHOX" && okTau then ["TAU"] else [])
    ++ (if iv = "TAU" && okRhox then ["RHOX"] else [])

/-- Number of interp_atmo_constrained invocations performed by the fitting
loop of interp_atmo_pair: one per entry of vtags, executed unconditionally
(in particular also when the blend fraction is 0). -/
def pairFitInvocations (okTau okRhox : Bool) (iv : String) : ℕ :=
  (vtagsOf okTau okRhox iv).length

/-- Python slice v[itop : itop + n] followed by the elementwise log10
(abstracted as lg) that turns a depth or quantity vector into fit space. -/
def sliceLog (lg : ℚ → ℚ) (v : List ℚ) (itop n : ℕ) : List ℚ :=
  ((v.drop itop).take n).map lg

/-- The data interp_atmo_pair derives from its inputs before fitting: the
chosen interpolation variable, the trim indices, the trimmed point counts and
the log-scale depth vectors of both atmospheres, and the vtag list. -/
structure PairSetup where
  iv : String
  itop1 : ℕ
  itop2 : ℕ
  ndep1 : ℕ
  ndep2 : ℕ
  depth1 : List ℚ
  depth2 : List ℚ
  vtags : List String
deriving DecidableEq

/-- Setup phase of interp_atmo_pair (lines 110-174): depth-scale selection,
top trimming of both atmospheres and construction of the log depth scales.
ndep_i = ibot_i - itop_i + 1 with ibot_i = atmo_i.ndep - 1. -/
def pairSetup (lg : ℚ → ℚ) (a1 a2 : PyAtmo) (interpvar : Option String) (itop : ℕ) :
    Except String PairSetup :=
  let okTau := a1.tau.isSome && a2.tau.isSome
  let okRhox := a1.rhox.isSome && a2.rhox.isSome
  match selectInterpvar interpvar okTau okRhox with
  | Except.error e => Except.error e
  | Except.ok iv =>
    match getVec a1 iv with
    | none => Except.error "AttributeError: missing interpolation variable"
    | some dv1 =>
      match getVec a2 iv with
      | none => Except.error "AttributeError: missing interpolation variable"
      | some dv2 =>
        match trimTop dv1 (1 / 100) itop with
        | Except.error e => Except.error e
        | Except.ok itop1 =>
          match trimTop dv2 (1 / 100) itop with
          | Except.error e => Except.error e
          | Except.ok itop2 =>
            Except.ok
              { iv := iv
                itop1 := itop1
                itop2 := itop2
                ndep1 := a1.ndep - itop1
                ndep2 := a2.ndep - itop2
                depth1 := sliceLog lg dv1 itop1 (a1.ndep - itop1)
                depth2 := sliceLog lg dv2 itop2 (a2.ndep - itop2)
                vtags := vtagsOf okTau okRhox iv }

/-- Median of three values (np.median of the 3-element ends list). -/
def median3 (a b c : ℚ) : ℚ := max (min a b) (min (max a b) c)

/-- The per-quantity vector slice in fit space: log of atmo[tag][itop : itop + n]. -/
def vecSlice (lg : ℚ → ℚ) (a : PyAtmo) (tag : String) (itop n : ℕ) : List ℚ :=
  sliceLog lg ((getVec a tag).getD []) itop n

/-- Shifted curve 1, interp_atmo_pair line 316: interp_atmo_func evaluated at
the output depth scale with parameters -frac * par and reference
(depth1, vect1), unclipped, full point count. -/
def shiftedCurve1 (depth depth1 v1 : List ℚ) (p : ℚ × ℚ × ℚ) (frac : ℚ) : List ℚ :=
  interpAtmoFunc depth (-frac * p.1) (-frac * p.2.1) (-frac * p.2.2) depth1 v1 depth.length none

/-- Shifted curve 2, interp_atmo_pair line 317: parameters (1 - frac) * par
with reference (depth2, vect2). -/
def shiftedCurve2 (depth depth2 v2 : List ℚ) (p : ℚ × ℚ × ℚ) (frac : ℚ) : List ℚ :=
  interpAtmoFunc depth ((1 - frac) * p.1) ((1 - frac) * p.2.1) ((1 - frac) * p.2.2) depth2 v2 depth.length none

/-- The plain blended vector of interp_atmo_pair line 318. -/
def blendPlain (depth depth1 depth2 v1 v2 : List ℚ) (p : ℚ × ℚ × ℚ) (frac : ℚ) : List ℚ :=
  List.zipWith (fun a b => (1 - frac) * a + frac * b)
    (shiftedCurve1 depth depth1 v1 p frac) (shiftedCurve2 depth depth2 v2 p frac)

/-- Trigger condition of the endpoint override (interp_atmo_pair lines
308-324): at least one output point beyond the shifted input ranges, a blend
fraction within [0, 1], equal trimmed point counts, a blended endpoint that
differs from the median of the three endpoints, and either input endpoint
within 0.1 of the magic log value 4.2. -/
def overridePred (depth depth1 depth2 v1 v2 : List ℚ) (p : ℚ × ℚ × ℚ) (frac : ℚ)
    (ndep1 ndep2 : ℕ) : Bool :=
  let d1f := depth1.map (fun d => d - p.1 * frac)
  let d2f := depth2.map (fun d => d + p.1 * (1 - frac))
  let x1max := listMaxQ d1f
  let x2max := listMaxQ d2f
  let v := blendPlain depth depth1 depth2 v1 v2 p frac
  let e1 := v1.getD (ndep1 - 1) 0
  let e2 := v2.getD (ndep2 - 1) 0
  let eb := v.getD (depth.length - 1) 0
  let nup := (depth.filter (fun d => decide (x1max < d) || decide (x2max < d))).length
  decide (1 ≤ nup) && decide (|frac - 1 / 2| ≤ 1 / 2) && decide (ndep1 = ndep2) &&
    decide (median3 e1 eb e2 ≠ eb) &&
    (decide (|e1 - 42 / 10| < 1 / 10) || decide (|e2 - 42 / 10| < 1 / 10))

/-- vect[iup] = src[iup] elementwise (interp_atmo_pair line 325): replace the
blended value by the chosen shifted curve at every output depth beyond either
shifted input range. -/
def applyOverride (depth v src : List ℚ) (x1max x2max : ℚ) : List ℚ :=
  List.zipWith (fun d (yz : ℚ × ℚ) => if x1max < d ∨ x2max < d then yz.2 else yz.1)
    depth (v.zip src)

/-- One quantity of the blending loop of interp_atmo_pair (lines 293-326):
the blended vector, with the endpoint override applied when its trigger
condition holds. -/
def blendVect (depth depth1 depth2 v1 v2 : List ℚ) (p : ℚ × ℚ × ℚ) (frac : ℚ)
    (ndep1 ndep2 : ℕ) : List ℚ :=
  let d1f := depth1.map (fun d => d - p.1 * frac)
  let d2f := depth2.map (fun d => d + p.1 * (1 - frac))
  let x1max := listMaxQ d1f
  let x2max := listMaxQ d2f
  let v := blendPlain depth depth1 depth2 v1 v2 p frac
  if overridePred depth depth1 depth2 v1 v2 p frac ndep1 ndep2 then
    applyOverride depth v
      (if x1max < x2max then shiftedCurve2 depth depth2 v2 p frac
        else shiftedCurve1 depth depth1 v1 p frac) x1max x2max
  else v

/-- Output depth scale of interp_atmo_pair (lines 271-283): mean horizontal
shift over all vtags, both depth scales shifted by their frac-weighted share,
then the sparser scale adopted, or the two blended when the point counts are
equal. -/
def outDepthScale (s : PairSetup) (frac : ℚ) (pars : ℕ → ℚ × ℚ × ℚ) : List ℚ :=
  let nvtag := s.vtags.length
  let xsh := (((List.range nvtag).map (fun i => (pars i).1)).sum) / (nvtag : ℚ)
  let d1f := s.depth1.map (fun d => d - xsh * frac)
  let d2f := s.depth2.map (fun d => d + xsh * (1 - frac))
  if s.ndep2 < s.ndep1 then d2f
  else if s.ndep1 = s.ndep2 then List.zipWith (fun a b => a * (1 - frac) + b * frac) d1f d2f
  else d1f

/-- Scalar blend used for the stags fields (and ABUND elementwise). -/
def stagBlend (frac a b : ℚ) : ℚ := (1 - frac) * a + frac * b

/-- One blended output vector in linear space (10 ** vects, with the
antilog abstracted as pw). -/
def tagBlend (lg pw : ℚ → ℚ) (a1 a2 : PyAtmo) (s : PairSetup) (frac : ℚ)
    (pars : ℕ → ℚ × ℚ × ℚ) (tag : String) : List ℚ :=
  (blendVect (outDepthScale s frac pars) s.depth1 s.depth2
    (vecSlice lg a1 tag s.itop1 s.ndep1) (vecSlice lg a2 tag s.itop2 s.ndep2)
    (pars (s.vtags.indexOf tag)) frac s.ndep1 s.ndep2).map pw

/-- Output-structure construction for one vector-valued field of atmo1
(interp_atmo_pair lines 361-390): vtag members are replaced by the blended
vector, any other vector of the original length is truncated to the new
depth count, anything else is copied unchanged. -/
def outVecField (lg pw : ℚ → ℚ) (a1 a2 : PyAtmo) (s : PairSetup) (frac : ℚ)
    (pars : ℕ → ℚ × ℚ × ℚ) (ndep : ℕ) (tag : String) (orig : List ℚ) : List ℚ :=
  if tag ∈ s.vtags then tagBlend lg pw a1 a2 s frac pars tag
  else if orig.length = a1.temp.length then orig.take ndep
  else orig

/-- interp_atmo_pair with the nonlinear fit abstracted: pars i is the
parameter vector (par[0], par[1], par[2]) returned by the i-th
interp_atmo_constrained call (par[3] is unused by interp_atmo_func).  The
guard reproduces the source's post-TEMP-fit check, which tests the stale
variable ngd = ndep1 (line 263) rather than the size of the restricted valid
set. -/
def pairOut (lg pw : ℚ → ℚ) (a1 a2 : PyAtmo) (frac : ℚ) (interpvar : Option String)
    (itop : ℕ) (pars : ℕ → ℚ × ℚ × ℚ) : Except String PyAtmo :=
  match pairSetup lg a1 a2 interpvar itop with
  | Except.error e => Except.error e
  | Except.ok s =>
    if s.ndep1 < 2 then Except.error "unstable shift in temperature"
    else
      let depth := outDepthScale s frac pars
      let ndep := depth.length
      let out := outVecField lg pw a1 a2 s frac pars ndep
      Except.ok
        { rhox := a1.rhox.map (fun v => out "RHOX" v)
          tau := a1.tau.map (fun v => out "TAU" v)
          temp := out "TEMP" a1.temp
          xne := out "XNE" a1.xne
          xna := out "XNA" a1.xna
          rho := out "RHO" a1.rho
          abund := List.zipWith (fun a b => stagBlend frac a b) a1.abund a2.abund
          teff := stagBlend frac a1.teff a2.teff
          logg := stagBlend frac a1.logg a2.logg
          monh := stagBlend frac a1.monh a2.monh
          vturb := stagBlend frac a1.vturb a2.vturb
          lonh := stagBlend frac a1.lonh a2.lonh
          ndep := ndep }

/-- Executable check that a list is strictly increasing in adjacent pairs. -/
def chainLtB : List ℚ → Bool
  | [] => true
  | [_] => true
  | a :: b :: t => decide (a < b) && chainLtB (b :: t)

theorem chainLtB_iff (l : List ℚ) : chainLtB l = true ↔ l.Chain' (· < ·) := by
  induction l with
  | nil => simp [chainLtB]
  | cons a t ih =>
    cases t with
    | nil => simp [chainLtB]
    | cons b t2 =>
      rw [List.chain'_cons, ← ih]
      simp [chainLtB]

/-- Well-formedness of an input atmosphere: every vector field has length
ndep, and the depth vectors are strictly increasing (the grid invariant the
spec states for reference profiles). -/
def wellFormedB (a : PyAtmo) : Bool :=
  (match a.rhox with
    | none => true
    | some v => decide (v.length = a.ndep) && chainLtB v) &&
  (match a.tau with
    | none => true
    | some v => decide (v.length = a.ndep) && chainLtB v) &&
  decide (a.temp.length = a.ndep) && decide (a.xne.length = a.ndep) &&
  decide (a.xna.length = a.ndep) && decide (a.rho.length = a.ndep)

/-! ### Post-TEMP-fit valid-set restriction (interp_atmo_pair, lines 256-264)

After the first (TEMP) fit the source restricts the valid point set to the
depth-1 points inside the shifted depth-2 range, stores its size in ndg, but
then tests the stale ngd (which still holds ndep1 from line 201). -/

/-- igd: indices of depth1 lying in [min depth2 + xshift, max depth2 + xshift]. -/
def igdRestrict (depth1 depth2 : List ℚ) (xshift : ℚ) : List ℕ :=
  (List.range depth1.length).filter (fun i =>
    decide (listMinQ depth2 + xshift ≤ depth1.getD i 0) &&
      decide (depth1.getD i 0 ≤ listMaxQ depth2 + xshift))

/-- The restriction step as the source executes it: compute igd and its size
ndg, then raise "unstable shift in temperature" if ngd < 2 — where ngd is
the full depth-1 point count, not ndg. -/
def tempFitRestrict (depth1 depth2 : List ℚ) (xshift : ℚ) : Except String (List ℕ) :=
  let igd := igdRestrict depth1 depth2 xshift
  let _ndg := igd.length
  let ngd := depth1.length
  if ngd < 2 then Except.error "unstable shift in temperature"
  else Except.ok igd

/-! ### Geometry resolution (interp_atmo_grid, lines 873-884)

When the caller supplied a nonempty GEOM that differs from the computed one:
a caller value of SPH against a computed PP raises; otherwise a diagnostic
line "Input ATMO.GEOM=... overrides ... from grid." is printed.  The
assignment atmo.geom = geom on line 884 then runs unconditionally, so the
stored geometry is always the computed one. -/

/-- Result: the flag records whether the override diagnostic was printed, the
string is the geometry stored on the returned structure. -/
def resolveGeom (callerGeom : Option String) (geom : String) :
    Except String (Bool × String) :=
  match callerGeom with
  | none => Except.ok (false, geom)
  | some g =>
    if g ≠ "" ∧ g ≠ geom then
      if g = "SPH" then Except.error "Input ATMO.GEOM not valid for requested model"
      else Except.ok (true, geom)
    else Except.ok (false, geom)

/-! ### Grid bracket searches (interp_atmo_grid, lines 577-711) -/

/-- One grid entry's key scalars. -/
structure GridEntry where
  teff : ℚ
  logg : ℚ
  monh : ℚ
deriving DecidableEq

/-- Bracket with extrapolation above and a fatal error below, as used for
[M/H] (lines 582-602) and log(g) (lines 616-638).  The returned flag records
the extrapolation diagnostic. -/
def bracketBelowFatal (l : List ℚ) (v : ℚ) : Except String (ℚ × ℚ × Bool) :=
  match listMin? l, listMax? l with
  | some mn, some mx =>
    if v < mn then Except.error "requested value smaller than min grid value"
    else if v ≤ mx then
      match listMax? (l.filter (fun y => decide (y ≤ v))),
          listMin? (l.filter (fun y => decide (v ≤ y))) with
      | some lo, some up => Except.ok (lo, up, decide (mx < v))
      | _, _ => Except.error "empty bracket"
    else
      match listMax? (l.filter (fun y => decide (y < mx))) with
      | some lo => Except.ok (lo, mx, decide (mx < v))
      | none => Except.error "zero-size array reduction"
  | _, _ => Except.error "zero-size array reduction"

/-- Bracket with a fatal error above and extrapolation below, the mirror
direction used for Teff (lines 660-681): Teff above the subgrid maximum
raises; below the minimum the two smallest values bracket, with a
diagnostic. -/
def tempBracket (l : List ℚ) (v : ℚ) : Except String (ℚ × ℚ × Bool) :=
  match listMin? l, listMax? l with
  | some mn, some mx =>
    if mx < v then Except.error "requested Teff larger than max grid value"
    else if mn < v then
      match listMax? (l.filter (fun y => decide (y ≤ v))),
          listMin? (l.filter (fun y => decide (v ≤ y))) with
      | some lo, some up => Except.ok (lo, up, decide (v < mn))
      | _, _ => Except.error "empty bracket"
    else
      match listMin? (l.filter (fun y => decide (mn < y))) with
      | some up => Except.ok (mn, up, decide (v < mn))
      | none => Except.error "zero-size array reduction"
  | _, _ => Except.error "zero-size array reduction"

/-- Metallicities of the whole grid (np.unique only sorts and deduplicates,
which changes neither min / max nor the filtered extrema used here). -/
def monhList (grid : List GridEntry) : List ℚ := grid.map (fun e => e.monh)

/-- Gravities of the subgrid at one metallicity boundary. -/
def loggList (grid : List GridEntry) (m : ℚ) : List ℚ :=
  (grid.filter (fun e => decide (e.monh = m))).map (fun e => e.logg)

/-- Temperatures of the subgrid at one (metallicity, gravity) boundary. -/
def teffList (grid : List GridEntry) (m g : ℚ) : List ℚ :=
  (grid.filter (fun e => decide (e.monh = m) && decide (e.logg = g))).map (fun e => e.teff)

/-- The eight corner keys (teff, logg, monh) produced by the nested bracket
search of interp_atmo_grid, in icor order. -/
def keyList (grid : List GridEntry) (teff logg monh : ℚ) :
    Except String (List (ℚ × ℚ × ℚ)) :=
  match bracketBelowFatal (monhList grid) monh with
  | Except.error e => Except.error e
  | Except.ok (mlo, mup, _) =>
    match bracketBelowFatal (loggList grid mlo) logg with
    | Except.error e => Except.error e
    | Except.ok (glo0, gup0, _) =>
      match bracketBelowFatal (loggList grid mup) logg with
      | Except.error e => Except.error e
      | Except.ok (glo1, gup1, _) =>
        match tempBracket (teffList grid mlo glo0) teff with
        | Except.error e => Except.error e
        | Except.ok (t00l, t00u, _) =>
          match tempBracket (teffList grid mlo gup0) teff with
          | Except.error e => Except.error e
          | Except.ok (t01l, t01u, _) =>
            match tempBracket (teffList grid mup glo1) teff with
            | Except.error e => Except.error e
            | Except.ok (t10l, t10u, _) =>
              match tempBracket (teffList grid mup gup1) teff with
              | Except.error e => Except.error e
              | Except.ok (t11l, t11u, _) =>
                Except.ok
                  [(t00l, glo0, mlo), (t00u, glo0, mlo), (t01l, gup0, mlo), (t01u, gup0, mlo),
                    (t10l, glo1, mup), (t10u, glo1, mup), (t11l, gup1, mup), (t11u, gup1, mup)]

/-- Whether a grid entry matches a corner key. -/
def matchesKey (e : GridEntry) (k : ℚ × ℚ × ℚ) : Bool :=
  decide (e.teff = k.1) && decide (e.logg = k.2.1) && decide (e.monh = k.2.2)

/-- Indices of all grid entries matching a corner key (np.where on the three
equality masks). -/
def cornerMatches (grid : List GridEntry) (k : ℚ × ℚ × ℚ) : List ℕ :=
  (List.range grid.length).filter (fun i => matchesKey (grid.getD i ⟨0, 0, 0⟩) k)

/-- Corner resolution (lines 700-711): the diagnostic flag is nwhr != 1, the
index used is iwhr[0]; an empty match set makes iwhr[0] an IndexError. -/
def cornerResolve (grid : List GridEntry) (k : ℚ × ℚ × ℚ) : Except String (Bool × ℕ) :=
  match cornerMatches grid k with
  | [] => Except.error "IndexError: index 0 is out of bounds"
  | i :: rest => Except.ok (decide ((i :: rest).length ≠ 1), i)

/-- The per-pair blend fraction of interp_atmo_grid (lines 751-753 and the
other six analogous computations): 0 for an identical-value pair, else the
actual fractional position. -/
def mfracOf (m0 m1 v : ℚ) : ℚ := if m0 = m1 then 0 else (v - m0) / (m1 - m0)

/-! ### Bracket lemmas -/

theorem tempBracket_mem (l : List ℚ) (v lo up : ℚ) (w : Bool)
    (h : tempBracket l v = Except.ok (lo, up, w)) : lo ∈ l ∧ up ∈ l := by
  unfold tempBracket at h
  cases hmn : listMin? l with
  | none => rw [hmn] at h; exact Except.noConfusion h
  | some mn =>
    cases hmx : listMax? l with
    | none => rw [hmn, hmx] at h; exact Except.noConfusion h
    | some mx =>
      rw [hmn, hmx] at h
      dsimp only at h
      by_cases h1 : mx < v
      · rw [if_pos h1] at h
        exact Except.noConfusion h
      · rw [if_neg h1] at h
        by_cases h2 : mn < v
        · rw [if_pos h2] at h
          cases hfl : listMax? (l.filter (fun y => decide (y ≤ v))) with
          | none => rw [hfl] at h; dsimp only at h; exact Except.noConfusion h
          | some lo2 =>
            cases hfu : listMin? (l.filter (fun y => decide (v ≤ y))) with
            | none => rw [hfl, hfu] at h; dsimp only at h; exact Except.noConfusion h
            | some up2 =>
              rw [hfl, hfu] at h
              dsimp only at h
              cases h
              exact ⟨List.mem_of_mem_filter (listMax?_mem _ _ hfl),
                List.mem_of_mem_filter (listMin?_mem _ _ hfu)⟩
        · rw [if_neg h2] at h
          cases hfu : listMin? (l.filter (fun y => decide (mn < y))) with
          | none => rw [hfu] at h; dsimp only at h; exact Except.noConfusion h
          | some up2 =>
            rw [hfu] at h
            dsimp only at h
            cases h
            exact ⟨listMin?_mem _ _ hmn, List.mem_of_mem_filter (listMin?_mem _ _ hfu)⟩

theorem bracketBelowFatal_self (l : List ℚ) (v : ℚ) (hv : v ∈ l) :
    bracketBelowFatal l v = Except.ok (v, v, false) := by
  cases hmn : listMin? l with
  | none =>
    cases l with
    | nil => simp at hv
    | cons x xs => simp [listMin?] at hmn
  | some mn =>
    cases hmx : listMax? l with
    | none =>
      cases l with
      | nil => simp at hv
      | cons x xs => simp [listMax?] at hmx
    | some mx =>
      have h1 : mn ≤ v := listMin?_le l mn v hmn hv
      have h2 : v ≤ mx := le_listMax? l mx v hmx hv
      have hfl : listMax? (l.filter (fun y => decide (y ≤ v))) = some v := by
        apply listMax?_eq_of
        · exact List.mem_filter.mpr ⟨hv, by simp⟩
        · intro y hy
          have := (List.mem_filter.mp hy).2
          simpa using this
      have hfu : listMin? (l.filter (fun y => decide (v ≤ y))) = some v := by
        apply listMin?_eq_of
        · exact List.mem_filter.mpr ⟨hv, by simp⟩
        · intro y hy
          have := (List.mem_filter.mp hy).2
          simpa using this
      have h3 : ¬ (v < mn) := not_lt.mpr h1
      have h4 : ¬ (mx < v) := not_lt.mpr h2
      unfold bracketBelowFatal
      rw [hmn, hmx]
      dsimp only
      rw [if_neg h3, if_pos h2, hfl, hfu]
      dsimp only
      simp [h4]

theorem teffList_mem (grid : List GridEntry) (m g t : ℚ) (h : t ∈ teffList grid m g) :
    ∃ e ∈ grid, matchesKey e (t, g, m) = true := by
  unfold teffList at h
  obtain ⟨e, he, het⟩ := List.mem_map.mp h
  have h2 := List.mem_filter.mp he
  have h3 : e.monh = m ∧ e.logg = g := by simpa using h2.2
  refine ⟨e, h2.1, ?_⟩
  simp [matchesKey, het, h3.1, h3.2]

/-- Joint characterisation of the eight corner keys: each key matches at
least one grid entry, and each key's metallicity component is one of the two
bracket values. -/
theorem keyList_spec (grid : List GridEntry) (T G M : ℚ) (ks : List (ℚ × ℚ × ℚ))
    (h : keyList grid T G M = Except.ok ks) :
    (∀ k ∈ ks, ∃ e ∈ grid, matchesKey e k = true) ∧
    (∀ mlo mup wm, bracketBelowFatal (monhList grid) M = Except.ok (mlo, mup, wm) →
      ∀ k ∈ ks, k.2.2 = mlo ∨ k.2.2 = mup) := by
  unfold keyList at h
  cases hm : bracketBelowFatal (monhList grid) M with
  | error e => rw [hm] at h; exact Except.noConfusion h
  | ok rm =>
    obtain ⟨mlo, mup, wm⟩ := rm
    rw [hm] at h
    dsimp only at h
    cases hg0 : bracketBelowFatal (loggList grid mlo) G with
    | error e => rw [hg0] at h; (try dsimp only at h); exact Except.noConfusion h
    | ok rg0 =>
      obtain ⟨glo0, gup0, wg0⟩ := rg0
      cases hg1 : bracketBelowFatal (loggList grid mup) G with
      | error e => rw [hg0, hg1] at h; (try dsimp only at h); exact Except.noConfusion h
      | ok rg1 =>
        obtain ⟨glo1, gup1, wg1⟩ := rg1
        rw [hg0, hg1] at h
        dsimp only at h
        cases ht00 : tempBracket (teffList grid mlo glo0) T with
        | error e => rw [ht00] at h; (try dsimp only at h); exact Except.noConfusion h
        | ok rt00 =>
          obtain ⟨t00l, t00u, w00⟩ := rt00
          cases ht01 : tempBracket (teffList grid mlo gup0) T with
          | error e => rw [ht00, ht01] at h; (try dsimp only at h); exact Except.noConfusion h
          | ok rt01 =>
            obtain ⟨t01l, t01u, w01⟩ := rt01
            cases ht10 : tempBracket (teffList grid mup glo1) T with
            | error e => rw [ht00, ht01, ht10] at h; (try dsimp only at h); exact Except.noConfusion h
            | ok rt10 =>
              obtain ⟨t10l, t10u, w10⟩ := rt10
              cases ht11 : tempBracket (teffList grid mup gup1) T with
              | error e => rw [ht00, ht01, ht10, ht11] at h; (try dsimp only at h); exact Except.noConfusion h
              | ok rt11 =>
                obtain ⟨t11l, t11u, w11⟩ := rt11
                rw [ht00, ht01, ht10, ht11] at h
                dsimp only at h
                cases h
                constructor
                · intro k hk
                  have m00 := tempBracket_mem _ _ _ _ _ ht00
                  have m01 := tempBracket_mem _ _ _ _ _ ht01
                  have m10 := tempBracket_mem _ _ _ _ _ ht10
                  have m11 := tempBracket_mem _ _ _ _ _ ht11
                  simp only [List.mem_cons, List.not_mem_nil, or_false] at hk
                  rcases hk with rfl | rfl | rfl | rfl | rfl | rfl | rfl | rfl
                  · exact teffList_mem grid mlo glo0 t00l m00.1
                  · exact teffList_mem grid mlo glo0 t00u m00.2
                  · exact teffList_mem grid mlo gup0 t01l m01.1
                  · exact teffList_mem grid mlo gup0 t01u m01.2
                  · exact teffList_mem grid mup glo1 t10l m10.1
                  · exact teffList_mem grid mup glo1 t10u m10.2
                  · exact teffList_mem grid mup gup1 t11l m11.1
                  · exact teffList_mem grid mup gup1 t11u m11.2
                · intro mlo2 mup2 wm2 hm2 k hk
                  simp only [Except.ok.injEq, Prod.mk.injEq] at hm2
                  obtain ⟨h1, h2, _⟩ := hm2
                  subst h1
                  subst h2
                  simp only [List.mem_cons, List.not_mem_nil, or_false] at hk
                  rcases hk with rfl | rfl | rfl | rfl | rfl | rfl | rfl | rfl <;> simp

/-- Error message of a result, if any (used to state which error a call
raises without needing decidable equality on Except). -/
def errMsg? {α : Type} : Except String α → Option String
  | Except.error e => some e
  | Except.ok _ => none

/-! ### Claim theorems

Concrete evaluations below use kernel reduction of rational arithmetic; the
Rat primitives are restored to semireducible for this purpose (Batteries
marks them irreducible only to keep simp from unfolding them). -/

section RatEval

set_option allowUnsafeReducibility true

attribute [local semireducible] Rat.add Rat.mul Rat.inv Rat.sub

/-- Claim C3: the spec says shift parameter index 2 is held fixed at its
initial value (0) throughout the production fit.  In the code,
interp_atmo_constrained receives the parinfo fixed-mask via kwargs but never
reads it, and hands all four parameters to curve_fit free.  The model curve
is not constant in parameter 2, and on the data below the least-squares
objective is strictly smaller at par2 = 1 than at the fixed value par2 = 0,
so an exact least-squares minimiser does not return parameter 2 at its
initial value: the fitted result does not, in general, have parameter 2
equal to its initial guess. -/
theorem C3_scale_parameter_not_fixed :
    interpAtmoFunc [0, 1, 2] 0 0 1 [0, 1, 2] [0, 1, 2] 3 (some [-1, 1, 3]) = [-1, 1, 3] ∧
    interpAtmoFunc [0, 1, 2] 0 0 0 [0, 1, 2] [0, 1, 2] 3 (some [-1, 1, 3]) = [0, 1, 2] ∧
    chi2 [-1, 1, 3] [-1, 1, 3] [1, 1, 1] < chi2 [-1, 1, 3] [0, 1, 2] [1, 1, 1] := by
  decide

/-- Claim C4: the spec says that when fewer than 2 points remain in the
restricted valid set after the temperature fit, the call fails.  The source
computes the restricted size into ndg but tests the stale ngd (the full
depth-1 point count): on the concrete input below the restricted set is
empty, yet the call succeeds; in general the guard depends only on the full
point count, never on the restricted set. -/
theorem C4_restriction_guard_tests_stale_count :
    (igdRestrict [0, 1, 2] [10, 11, 12] 0).length = 0 ∧
    (tempFitRestrict [0, 1, 2] [10, 11, 12] 0).toOption = some [] ∧
    (∀ depth1 depth2 : List ℚ, ∀ xshift : ℚ,
      Except.isOk (tempFitRestrict depth1 depth2 xshift) = !decide (depth1.length < 2)) := by
  refine ⟨by decide, by decide, ?_⟩
  intro d1 d2 x
  unfold tempFitRestrict
  dsimp only
  by_cases h : d1.length < 2 <;> simp [h, Except.isOk, Except.toBool]

/-- Claim C5: a caller-declared SPH with computed PP fails, as claimed; but
for caller PP with computed SPH the source prints the override diagnostic
and then executes atmo.geom = geom unconditionally, so the stored geometry
is the computed SPH, not the caller value: the caller's value does not
win. -/
theorem C5_geometry_caller_value_loses :
    Except.isOk (resolveGeom (some "SPH") "PP") = false ∧
    errMsg? (resolveGeom (some "SPH") "PP") =
      some "Input ATMO.GEOM not valid for requested model" ∧
    (resolveGeom (some "PP") "SPH").toOption = some (true, "SPH") ∧
    "SPH" ≠ "PP" := by
  decide

/-- Claim C7: the temperature bracket is the mirror of the metallicity and
gravity brackets.  For any value list with minimum mn and maximum mx: a
target above mx is a fatal error for the temperature bracket but an
extrapolation (warning flag true, bracketing with the largest values) for
the metallicity / gravity bracket; a target below mn succeeds for the
temperature bracket with the two smallest values and the warning flag, but
is a fatal error for the metallicity / gravity bracket. -/
theorem C7_temp_bracket_mirror (l : List ℚ) (v mn mx : ℚ)
    (hmn : listMin? l = some mn) (hmx : listMax? l = some mx) :
    (mx < v → tempBracket l v = Except.error "requested Teff larger than max grid value") ∧
    (v < mn → ∀ up, listMin? (l.filter (fun y => decide (mn < y))) = some up →
      tempBracket l v = Except.ok (mn, up, true)) ∧
    (mx < v → ∀ lo, listMax? (l.filter (fun y => decide (y < mx))) = some lo →
      bracketBelowFatal l v = Except.ok (lo, mx, true)) ∧
    (v < mn → bracketBelowFatal l v = Except.error "requested value smaller than min grid value") := by
  have hmnx : mn ≤ mx := le_listMax? l mx mn hmx (listMin?_mem l mn hmn)
  refine ⟨?_, ?_, ?_, ?_⟩
  · intro h1
    unfold tempBracket
    rw [hmn, hmx]
    dsimp only
    rw [if_pos h1]
  · intro h1 up hup
    unfold tempBracket
    rw [hmn, hmx]
    dsimp only
    rw [if_neg (not_lt.mpr (by linarith)), if_neg (not_lt.mpr (le_of_lt h1)), hup]
    dsimp only
    simp [h1]
  · intro h1 lo hlo
    unfold bracketBelowFatal
    rw [hmn, hmx]
    dsimp only
    rw [if_neg (not_lt.mpr (by linarith)), if_neg (not_le.mpr h1), hlo]
    dsimp only
    simp [h1]
  · intro h1
    unfold bracketBelowFatal
    rw [hmn, hmx]
    dsimp only
    rw [if_pos h1]

/-- Claim C7 witness: on the two-temperature list [1, 2], a target 3 above
the maximum is fatal for the temperature bracket and an extrapolation for
the metallicity / gravity bracket, while a target 0 below the minimum
extrapolates with the two smallest temperatures and is fatal for the
metallicity / gravity bracket. -/
theorem C7_temp_bracket_mirror_witness :
    tempBracket [1, 2] 3 = Except.error "requested Teff larger than max grid value" ∧
    tempBracket [1, 2] 0 = Except.ok (1, 2, true) ∧
    bracketBelowFatal [1, 2] 3 = Except.ok (1, 2, true) ∧
    bracketBelowFatal [1, 2] 0 = Except.error "requested value smaller than min grid value" := by
  have h3 := C7_temp_bracket_mirror [1, 2] 3 1 2 (by decide) (by decide)
  have h0 := C7_temp_bracket_mirror [1, 2] 0 1 2 (by decide) (by decide)
  exact ⟨h3.1 (by norm_num), h0.2.1 (by norm_num) 2 (by decide),
    h3.2.2.1 (by norm_num) 1 (by decide), h0.2.2.2 (by norm_num)⟩

/-- Claim C9: the spec says a call without a caller-specified interpolation
variable auto-selects TAU (when both atmospheres have it) or RHOX.  The
Python default for interpvar is the empty string, while the auto-selection
branch tests for None, so the default value reaches validation unchanged and
every default call fails with the validation error — even when both
atmospheres carry TAU.  The auto-selection logic exists but is reachable
only for an explicit None argument; the neither-RHOX-nor-TAU error does come
first, as claimed. -/
theorem C9_default_interpvar_always_rejected :
    (∀ okTau okRhox : Bool, (selectInterpvar (some "") okTau okRhox).toOption = none) ∧
    errMsg? (selectInterpvar (some "") true true) =
      some "interpvar must be TAU (default) or RHOX" ∧
    errMsg? (selectInterpvar (some "") false false) =
      some "atmo1 and atmo2 structures must both contain RHOX or TAU" ∧
    (selectInterpvar none true true).toOption = some "TAU" ∧
    (selectInterpvar none false true).toOption = some "RHOX" := by
  refine ⟨?_, by decide, by decide, by decide, by decide⟩
  intro okTau okRhox
  cases okTau <;> cases okRhox <;> decide

/-- Claim C10: the top-trimming loop is well-defined exactly under the
precondition that some consecutive fractional step at or after the start
index exceeds 0.01: it then stops at an in-bounds index whose step exceeds
the threshold, while on a profile whose steps are all at most 0.01 it runs
past the end of the vector (an undocumented IndexError, not one of the
documented errors). -/
theorem C10_trim_loop_precondition (xs : List ℚ) (itop : ℕ) :
    ((∃ j, itop ≤ j ∧ j + 1 < xs.length ∧
        1 / 100 < xs.getD (j + 1) 0 / xs.getD j 0 - 1) →
      ∃ k, trimTop xs (1 / 100) itop = Except.ok k ∧ itop ≤ k ∧ k + 1 < xs.length ∧
        1 / 100 < xs.getD (k + 1) 0 / xs.getD k 0 - 1) ∧
    ((∀ j, itop ≤ j → j + 1 < xs.length →
        xs.getD (j + 1) 0 / xs.getD j 0 - 1 ≤ 1 / 100) →
      trimTop xs (1 / 100) itop = Except.error "IndexError: index out of bounds") := by
  constructor
  · intro ⟨j, hij, hjl, hstep⟩
    exact trimTopAux_ok xs (1 / 100) (xs.length + 1) itop j hij hjl hstep (by omega)
  · intro hall
    exact trimTopAux_error xs (1 / 100) (xs.length + 1) itop hall

/-- Claim C10 witness: on [1, 2, 4] the loop stops at index 0, while on
[100, 100.5, 101], whose fractional steps are both at most 1 percent, it
runs out of bounds. -/
theorem C10_trim_loop_precondition_witness :
    (∃ k, trimTop [1, 2, 4] (1 / 100) 0 = Except.ok k ∧ 0 ≤ k ∧ k + 1 < 3 ∧
      1 / 100 < ([1, 2, 4] : List ℚ).getD (k + 1) 0 / ([1, 2, 4] : List ℚ).getD k 0 - 1) ∧
    trimTop [100, 1005 / 10, 101] (1 / 100) 0 =
      Except.error "IndexError: index out of bounds" := by
  constructor
  · have h := (C10_trim_loop_precondition [1, 2, 4] 0).1 ⟨0, by omega, by decide, by decide⟩
    simpa using h
  · apply (C10_trim_loop_precondition [100, 1005 / 10, 101] 0).2
    intro j _ h1
    have hj : j = 0 ∨ j = 1 := by simp at h1; omega
    rcases hj with rfl | rfl <;> decide


/-! ### Claim C1: the soft-constraint mechanism -/

theorem interpAtmoFunc_append_zeros (xin : List ℚ) (k : ℕ) (p0 p1 p2 : ℚ)
    (x2 y2 : List ℚ) (c : Option (List ℚ)) :
    interpAtmoFunc (xin ++ List.replicate k 0) p0 p1 p2 x2 y2 xin.length c =
      interpAtmoFunc xin p0 p1 p2 x2 y2 xin.length c ++ List.replicate k 0 := by
  cases c <;>
    simp only [interpAtmoFunc, List.take_left, List.take_length, List.length_append,
      List.length_replicate, Nat.add_sub_cancel_left, Nat.sub_self, List.replicate_zero,
      List.append_nil]

/-- Claim C1: the spec says the appended synthetic (x = 0, y = 0) points
penalise the constrained parameters toward zero, so their contribution to
the least-squares residual depends on those parameters.  In the port,
interp_atmo_func writes interpolated values only into the first ndep
entries of its output and leaves the rest at zero; with functargs ndep equal
to the data point count (as in the production TEMP fit), every appended
point therefore contributes a residual of (0 - 0) / err for every parameter
vector: the constrained objective equals the unconstrained objective
identically, and no penalty is applied.  (The IDL original appended
par - ipar to the model output; the port's corresponding line is commented
out.) -/
theorem C1_constraint_points_inert (xin yin errin constraints x2 y2 yclip : List ℚ)
    (hy : yin.length = xin.length) (he : errin.length = xin.length) (p0 p1 p2 : ℚ) :
    chi2 (appendConstraints xin yin errin constraints).2.1
      (interpAtmoFunc (appendConstraints xin yin errin constraints).1 p0 p1 p2 x2 y2
        xin.length (some yclip))
      (appendConstraints xin yin errin constraints).2.2 =
    chi2 yin (interpAtmoFunc xin p0 p1 p2 x2 y2 xin.length (some yclip)) errin := by
  unfold appendConstraints
  dsimp only
  by_cases hk : (constraints.filter (fun c => decide (c ≠ 0))).length = 0
  · rw [if_pos hk]
  · rw [if_neg hk]
    dsimp only
    rw [interpAtmoFunc_append_zeros, chi2_append]
    · rw [chi2_synthetic_zero]
      ring
    · rw [interpAtmoFunc_length]
      omega
    · omega

/-- Claim C1 witness: a concrete constrained TEMP-style fit with one nonzero
constraint (0.5 on the horizontal shift): the appended point changes neither
the data nor the objective. -/
theorem C1_constraint_points_inert_witness :
    chi2 (appendConstraints [0, 1, 2] [1, 2, 3] [1, 1, 1] [1 / 2, 0, 0, 0]).2.1
      (interpAtmoFunc (appendConstraints [0, 1, 2] [1, 2, 3] [1, 1, 1] [1 / 2, 0, 0, 0]).1
        1 1 0 [0, 1, 2] [5, 6, 7] ([0, 1, 2] : List ℚ).length (some [1, 2, 3]))
      (appendConstraints [0, 1, 2] [1, 2, 3] [1, 1, 1] [1 / 2, 0, 0, 0]).2.2 =
    chi2 [1, 2, 3]
      (interpAtmoFunc [0, 1, 2] 1 1 0 [0, 1, 2] [5, 6, 7] ([0, 1, 2] : List ℚ).length
        (some [1, 2, 3])) [1, 1, 1] :=
  C1_constraint_points_inert [0, 1, 2] [1, 2, 3] [1, 1, 1] [1 / 2, 0, 0, 0]
    [0, 1, 2] [5, 6, 7] [1, 2, 3] (by decide) (by decide) 1 1 0

theorem eq_ok_of_toOption {α : Type} (e : Except String α) (x : α)
    (h : e.toOption = some x) : e = Except.ok x := by
  cases e with
  | ok y => simpa [Except.toOption] using h
  | error s => simp [Except.toOption] at h

/-! ### Claim C8: corner resolution -/

/-- Claim C8: every corner key produced by the nested bracket search matches
at least one grid entry (so the zero-match arm of the diagnostic is
unreachable for produced keys), and corner resolution never fails on such a
key: it returns the first (smallest) matching index together with the
diagnostic flag nwhr != 1, and proceeds. -/
theorem C8_corner_first_match (grid : List GridEntry) (T G M : ℚ)
    (ks : List (ℚ × ℚ × ℚ)) (h : keyList grid T G M = Except.ok ks) :
    ∀ k ∈ ks, 1 ≤ (cornerMatches grid k).length ∧
      ∃ i rest, cornerMatches grid k = i :: rest ∧
        cornerResolve grid k = Except.ok (decide ((cornerMatches grid k).length ≠ 1), i) ∧
        ∀ j ∈ cornerMatches grid k, i ≤ j := by
  intro k hk
  obtain ⟨e, he, hme⟩ := (keyList_spec grid T G M ks h).1 k hk
  obtain ⟨n, hn, hgn⟩ := List.mem_iff_getElem.mp he
  have hmem : n ∈ cornerMatches grid k := by
    apply List.mem_filter.mpr
    refine ⟨List.mem_range.mpr hn, ?_⟩
    have hd : grid.getD n ⟨0, 0, 0⟩ = e := by
      rw [List.getD_eq_getElem?_getD, List.getElem?_eq_getElem hn]
      simpa using hgn
    rw [hd]
    exact hme
  cases hcm : cornerMatches grid k with
  | nil => rw [hcm] at hmem; simp at hmem
  | cons i rest =>
    have hpw : (i :: rest).Pairwise (· < ·) := by
      rw [← hcm]
      exact List.Pairwise.filter _ (List.sorted_lt_range grid.length)
    refine ⟨by simp, i, rest, rfl, ?_, ?_⟩
    · unfold cornerResolve
      rw [hcm]
    · intro j hj
      rcases List.mem_cons.mp hj with rfl | hj2
      · exact le_refl j
      · exact le_of_lt (List.rel_of_pairwise_cons hpw hj2)

/-- A small grid with one duplicated corner entry, for the C8 witness. -/
def wGrid : List GridEntry :=
  [⟨1, 1, 0⟩, ⟨2, 1, 0⟩, ⟨1, 2, 0⟩, ⟨2, 2, 0⟩, ⟨1, 1, 0⟩]

/-- The corner keys the bracket search produces on wGrid for target
(Teff, logg, monh) = (1.5, 1.5, 0). -/
def wKeys : List (ℚ × ℚ × ℚ) :=
  [(1, 1, 0), (2, 1, 0), (1, 2, 0), (2, 2, 0), (1, 1, 0), (2, 1, 0), (1, 2, 0), (2, 2, 0)]

/-- Claim C8 witness: the key (1, 1, 0) matches two entries of wGrid; the
resolution emits the diagnostic flag and proceeds with the first matching
index 0. -/
theorem C8_corner_first_match_witness :
    cornerResolve wGrid (1, 1, 0) = Except.ok (true, 0) ∧
    1 ≤ (cornerMatches wGrid (1, 1, 0)).length := by
  obtain ⟨h1, i, rest, hm, hres, hmin⟩ :=
    C8_corner_first_match wGrid (3 / 2) (3 / 2) 0 wKeys
      (eq_ok_of_toOption _ _ (by decide)) (1, 1, 0) (by decide)
  have hcm : cornerMatches wGrid (1, 1, 0) = [0, 4] := by decide
  rw [hcm] at hm
  injection hm with hi hrest
  subst hi
  rw [hcm] at hres
  refine ⟨?_, h1⟩
  simpa using hres

/-! ### Claim C6: node metallicity -/

/-- Claim C6 (amended): for a target metallicity equal to a grid node, the
metallicity bracket degenerates to (M, M), every corner key carries that
metallicity, and every metallicity-pair blend fraction computed from matched
corner entries is 0 — but the pair blend is still invoked and its fitting
loop performs one interp_atmo_constrained call per vtag (at least five), for
any availability flags and interpolation variable; only diagnostic plotting
is suppressed for a zero fraction. -/
theorem C6_node_metallicity_zero_frac (grid : List GridEntry) (T G M : ℚ)
    (ks : List (ℚ × ℚ × ℚ)) (hnode : M ∈ monhList grid)
    (h : keyList grid T G M = Except.ok ks) :
    (∀ k ∈ ks, k.2.2 = M) ∧
    (∀ k1 ∈ ks, ∀ k2 ∈ ks, ∀ e0 e1 : GridEntry,
      matchesKey e0 k1 = true → matchesKey e1 k2 = true →
      mfracOf e0.monh e1.monh M = 0) ∧
    (∀ okT okR : Bool, ∀ iv : String, 0 < pairFitInvocations okT okR iv) := by
  have hself := bracketBelowFatal_self (monhList grid) M hnode
  have hmm := (keyList_spec grid T G M ks h).2 M M false hself
  have hall : ∀ k ∈ ks, k.2.2 = M := fun k hk => (hmm k hk).elim id id
  refine ⟨hall, ?_, ?_⟩
  · intro k1 hk1 k2 hk2 e0 e1 hm0 hm1
    have h0 : e0.monh = k1.2.2 := by
      simp only [matchesKey, Bool.and_eq_true, decide_eq_true_eq] at hm0
      exact hm0.2
    have h1 : e1.monh = k2.2.2 := by
      simp only [matchesKey, Bool.and_eq_true, decide_eq_true_eq] at hm1
      exact hm1.2
    rw [h0, h1, hall k1 hk1, hall k2 hk2]
    simp [mfracOf]
  · intro okT okR iv
    simp only [pairFitInvocations, vtagsOf, List.length_append]
    split_ifs <;> simp

/-- The duplicate-free node grid for the C6 counterexample and witness. -/
def c6Grid : List GridEntry := [⟨1, 1, 0⟩, ⟨2, 1, 0⟩, ⟨1, 2, 0⟩, ⟨2, 2, 0⟩]

/-- The corner keys produced on c6Grid for target (1.5, 1.5, 0). -/
def c6Keys : List (ℚ × ℚ × ℚ) :=
  [(1, 1, 0), (2, 1, 0), (1, 2, 0), (2, 2, 0), (1, 1, 0), (2, 1, 0), (1, 2, 0), (2, 2, 0)]

/-- Claim C6 counterexample: a target metallicity (0) exactly at a grid node
collapses every metallicity fraction to 0, but the claim's second half is
false: the pair blend is invoked by interp_atmo_grid regardless of the
fraction, and its fitting loop performs 6 constrained-fit calls (one per
vtag) — not zero.  Only the plot flag is gated on mfrac != 0. -/
theorem C6_node_metallicity_zero_frac_counterexample :
    (keyList c6Grid (3 / 2) (3 / 2) 0).toOption = some c6Keys ∧
    mfracOf 0 0 0 = 0 ∧
    pairFitInvocations true true "TAU" = 6 ∧ (6 : ℕ) ≠ 0 := by
  refine ⟨by decide, by decide, by decide, by decide⟩

/-- Claim C6 witness: the amended statement applied to c6Grid at the node
metallicity 0. -/
theorem C6_node_metallicity_zero_frac_witness :
    mfracOf 0 0 0 = 0 ∧ 0 < pairFitInvocations true true "TAU" := by
  have h := C6_node_metallicity_zero_frac c6Grid (3 / 2) (3 / 2) 0 c6Keys (by decide)
    (eq_ok_of_toOption _ _ (by decide))
  refine ⟨?_, h.2.2 true true "TAU"⟩
  have h2 := h.2.1 (1, 1, 0) (by decide) (1, 1, 0) (by decide) ⟨1, 1, 0⟩ ⟨1, 1, 0⟩
    (by decide) (by decide)
  simpa using h2


/-! ### Claim C2: output invariants of the pair blend -/

theorem wellFormedB_spec (a : PyAtmo) (h : wellFormedB a = true) :
    (∀ v, a.rhox = some v → v.length = a.ndep ∧ v.Chain' (· < ·)) ∧
    (∀ v, a.tau = some v → v.length = a.ndep ∧ v.Chain' (· < ·)) ∧
    a.temp.length = a.ndep ∧ a.xne.length = a.ndep ∧ a.xna.length = a.ndep ∧
    a.rho.length = a.ndep := by
  unfold wellFormedB at h
  simp only [Bool.and_eq_true, decide_eq_true_eq] at h
  obtain ⟨⟨⟨⟨⟨h1, h2⟩, h3⟩, h4⟩, h5⟩, h6⟩ := h
  refine ⟨?_, ?_, h3, h4, h5, h6⟩
  · intro v hv
    rw [hv] at h1
    simp only [Bool.and_eq_true, decide_eq_true_eq] at h1
    exact ⟨h1.1, (chainLtB_iff v).mp h1.2⟩
  · intro v hv
    rw [hv] at h2
    simp only [Bool.and_eq_true, decide_eq_true_eq] at h2
    exact ⟨h2.1, (chainLtB_iff v).mp h2.2⟩

theorem pairSetup_spec (lg : ℚ → ℚ) (a1 a2 : PyAtmo) (interpvar : Option String) (itop : ℕ)
    (s : PairSetup) (h : pairSetup lg a1 a2 interpvar itop = Except.ok s) :
    (s.iv = "TAU" ∨ s.iv = "RHOX") ∧
    s.vtags = vtagsOf (a1.tau.isSome && a2.tau.isSome) (a1.rhox.isSome && a2.rhox.isSome) s.iv ∧
    ∃ dv1 dv2, getVec a1 s.iv = some dv1 ∧ getVec a2 s.iv = some dv2 ∧
      trimTop dv1 (1 / 100) itop = Except.ok s.itop1 ∧
      trimTop dv2 (1 / 100) itop = Except.ok s.itop2 ∧
      s.ndep1 = a1.ndep - s.itop1 ∧ s.ndep2 = a2.ndep - s.itop2 ∧
      s.depth1 = sliceLog lg dv1 s.itop1 s.ndep1 ∧
      s.depth2 = sliceLog lg dv2 s.itop2 s.ndep2 := by
  unfold pairSetup at h
  dsimp only at h
  cases hsel : selectInterpvar interpvar (a1.tau.isSome && a2.tau.isSome)
      (a1.rhox.isSome && a2.rhox.isSome) with
  | error e => rw [hsel] at h; exact Except.noConfusion h
  | ok iv =>
    rw [hsel] at h
    dsimp only at h
    cases hg1 : getVec a1 iv with
    | none => rw [hg1] at h; exact Except.noConfusion h
    | some dv1 =>
      rw [hg1] at h
      dsimp only at h
      cases hg2 : getVec a2 iv with
      | none => rw [hg2] at h; exact Except.noConfusion h
      | some dv2 =>
        rw [hg2] at h
        dsimp only at h
        cases ht1 : trimTop dv1 (1 / 100) itop with
        | error e => rw [ht1] at h; exact Except.noConfusion h
        | ok itop1 =>
          rw [ht1] at h
          dsimp only at h
          cases ht2 : trimTop dv2 (1 / 100) itop with
          | error e => rw [ht2] at h; exact Except.noConfusion h
          | ok itop2 =>
            rw [ht2] at h
            dsimp only at h
            cases h
            exact ⟨selectInterpvar_ok _ _ _ _ hsel, rfl, dv1, dv2, hg1, hg2, ht1, ht2,
              rfl, rfl, rfl, rfl⟩

theorem sliceLog_length (lg : ℚ → ℚ) (v : List ℚ) (i n : ℕ) :
    (sliceLog lg v i n).length = min n (v.length - i) := by
  simp [sliceLog]

theorem sliceLog_chain' (lg : ℚ → ℚ) (hlg : StrictMono lg) (v : List ℚ) (i n : ℕ)
    (hc : v.Chain' (· < ·)) : (sliceLog lg v i n).Chain' (· < ·) := by
  unfold sliceLog
  refine chain'_lt_map _ hlg _ ?_
  exact List.Chain'.sublist hc ((List.take_sublist _ _).trans (List.drop_sublist _ _))

theorem interpAtmoFunc_length_self (x1 : List ℚ) (p0 p1 p2 : ℚ) (x2 y2 : List ℚ)
    (c : Option (List ℚ)) :
    (interpAtmoFunc x1 p0 p1 p2 x2 y2 x1.length c).length = x1.length := by
  rw [interpAtmoFunc_length]
  omega

theorem shiftedCurve1_length (depth depth1 v1 : List ℚ) (p : ℚ × ℚ × ℚ) (frac : ℚ) :
    (shiftedCurve1 depth depth1 v1 p frac).length = depth.length :=
  interpAtmoFunc_length_self ..

theorem shiftedCurve2_length (depth depth2 v2 : List ℚ) (p : ℚ × ℚ × ℚ) (frac : ℚ) :
    (shiftedCurve2 depth depth2 v2 p frac).length = depth.length :=
  interpAtmoFunc_length_self ..

theorem blendPlain_length (depth depth1 depth2 v1 v2 : List ℚ) (p : ℚ × ℚ × ℚ) (frac : ℚ) :
    (blendPlain depth depth1 depth2 v1 v2 p frac).length = depth.length := by
  unfold blendPlain
  rw [List.length_zipWith, shiftedCurve1_length, shiftedCurve2_length]
  omega

theorem applyOverride_length (depth v src : List ℚ) (x1max x2max : ℚ)
    (hv : v.length = depth.length) (hsrc : src.length = depth.length) :
    (applyOverride depth v src x1max x2max).length = depth.length := by
  unfold applyOverride
  rw [List.length_zipWith, List.length_zip, hv, hsrc]
  omega

theorem blendVect_length (depth depth1 depth2 v1 v2 : List ℚ) (p : ℚ × ℚ × ℚ) (frac : ℚ)
    (ndep1 ndep2 : ℕ) :
    (blendVect depth depth1 depth2 v1 v2 p frac ndep1 ndep2).length = depth.length := by
  unfold blendVect
  dsimp only
  split_ifs with h h2
  · exact applyOverride_length _ _ _ _ _ (blendPlain_length ..) (shiftedCurve2_length ..)
  · exact applyOverride_length _ _ _ _ _ (blendPlain_length ..) (shiftedCurve1_length ..)
  · exact blendPlain_length ..

theorem blendVect_no_override (depth depth1 depth2 v1 v2 : List ℚ) (p : ℚ × ℚ × ℚ)
    (frac : ℚ) (ndep1 ndep2 : ℕ)
    (h : overridePred depth depth1 depth2 v1 v2 p frac ndep1 ndep2 = false) :
    blendVect depth depth1 depth2 v1 v2 p frac ndep1 ndep2 =
      blendPlain depth depth1 depth2 v1 v2 p frac := by
  unfold blendVect
  simp [h]

theorem convex_comb_lt (f a a2 b b2 : ℚ) (h0 : 0 ≤ f) (h1 : f ≤ 1)
    (ha : a < a2) (hb : b < b2) : a * (1 - f) + b * f < a2 * (1 - f) + b2 * f := by
  rcases lt_or_eq_of_le h1 with h | h
  · have k1 : 0 < (a2 - a) * (1 - f) := mul_pos (by linarith) (by linarith)
    have k2 : 0 ≤ (b2 - b) * f := mul_nonneg (by linarith) h0
    nlinarith
  · subst h
    simpa using hb

theorem convex_comb_lt2 (f a a2 b b2 : ℚ) (h0 : 0 ≤ f) (h1 : f ≤ 1)
    (ha : a < a2) (hb : b < b2) : (1 - f) * a + f * b < (1 - f) * a2 + f * b2 := by
  have := convex_comb_lt f a a2 b b2 h0 h1 ha hb
  linarith [mul_comm a (1 - f), mul_comm a2 (1 - f), mul_comm b f, mul_comm b2 f]

theorem add_const_strictMono (c : ℚ) : StrictMono (fun d : ℚ => d + c) := by
  intro a b hab
  dsimp only
  linarith

theorem sub_const_strictMono (c : ℚ) : StrictMono (fun d : ℚ => d - c) := by
  intro a b hab
  dsimp only
  linarith

theorem outDepthScale_chain' (s : PairSetup) (frac : ℚ) (pars : ℕ → ℚ × ℚ × ℚ)
    (h0 : 0 ≤ frac) (h1 : frac ≤ 1)
    (hc1 : s.depth1.Chain' (· < ·)) (hc2 : s.depth2.Chain' (· < ·)) :
    (outDepthScale s frac pars).Chain' (· < ·) := by
  unfold outDepthScale
  dsimp only
  split_ifs with hlt heq
  · exact chain'_lt_map _ (add_const_strictMono _) _ hc2
  · refine chain'_lt_zipWith _ (fun a a2 b b2 ha hb => convex_comb_lt frac a a2 b b2 h0 h1 ha hb)
      _ _ ?_ ?_
    · exact chain'_lt_map _ (sub_const_strictMono _) _ hc1
    · exact chain'_lt_map _ (add_const_strictMono _) _ hc2
  · exact chain'_lt_map _ (sub_const_strictMono _) _ hc1

theorem outDepthScale_length (s : PairSetup) (frac : ℚ) (pars : ℕ → ℚ × ℚ × ℚ)
    (hd1 : s.depth1.length = s.ndep1) (hd2 : s.depth2.length = s.ndep2) :
    (outDepthScale s frac pars).length = min s.ndep1 s.ndep2 := by
  unfold outDepthScale
  dsimp only
  split_ifs with hlt heq <;>
    simp [List.length_zipWith, hd1, hd2] <;> omega

theorem shiftedCurve1_zero_scale (depth depth1 v1 : List ℚ) (p : ℚ × ℚ × ℚ) (frac : ℚ)
    (hp : p.2.2 = 0) :
    shiftedCurve1 depth depth1 v1 p frac =
      depth.map (fun t => interpLin ((depth1.map (fun x => x + -frac * p.1)).zip
        (v1.map (fun y => y + -frac * p.2.1))) t) := by
  unfold shiftedCurve1
  rw [hp, mul_zero]
  exact interpAtmoFunc_zero_scale ..

theorem shiftedCurve2_zero_scale (depth depth2 v2 : List ℚ) (p : ℚ × ℚ × ℚ) (frac : ℚ)
    (hp : p.2.2 = 0) :
    shiftedCurve2 depth depth2 v2 p frac =
      depth.map (fun t => interpLin ((depth2.map (fun x => x + (1 - frac) * p.1)).zip
        (v2.map (fun y => y + (1 - frac) * p.2.1))) t) := by
  unfold shiftedCurve2
  rw [hp, mul_zero]
  exact interpAtmoFunc_zero_scale ..

theorem zip_shifted_chain_fst (xs ys : List ℚ) (c d : ℚ) (hx : xs.Chain' (· < ·)) :
    ((xs.map (fun x => x + c)).zip (ys.map (fun y => y + d))).Chain'
      (fun a b : ℚ × ℚ => a.1 < b.1) :=
  chain'_zip_fst _ _ (chain'_lt_map _ (add_const_strictMono c) _ hx)

theorem zip_shifted_chain_snd (xs ys : List ℚ) (c d : ℚ) (hy : ys.Chain' (· < ·)) :
    ((xs.map (fun x => x + c)).zip (ys.map (fun y => y + d))).Chain'
      (fun a b : ℚ × ℚ => a.2 < b.2) :=
  chain'_zip_snd _ _ (chain'_lt_map _ (add_const_strictMono d) _ hy)

/-- The blended vector of one quantity is strictly increasing provided the
blend fraction lies in [0, 1], the fitted scale term is 0, the endpoint
override does not fire, the depth scales and the quantity vectors are
strictly increasing, and all relevant vectors have at least two points. -/
theorem blendVect_chain' (depth depth1 depth2 v1 v2 : List ℚ) (p : ℚ × ℚ × ℚ) (frac : ℚ)
    (ndep1 ndep2 : ℕ) (h0 : 0 ≤ frac) (h1 : frac ≤ 1) (hp : p.2.2 = 0)
    (hov : overridePred depth depth1 depth2 v1 v2 p frac ndep1 ndep2 = false)
    (hd : depth.Chain' (· < ·)) (hc1 : depth1.Chain' (· < ·)) (hc2 : depth2.Chain' (· < ·))
    (hv1 : v1.Chain' (· < ·)) (hv2 : v2.Chain' (· < ·))
    (hl1 : 2 ≤ depth1.length) (hl2 : 2 ≤ depth2.length)
    (hlv1 : depth1.length ≤ v1.length) (hlv2 : depth2.length ≤ v2.length) :
    (blendVect depth depth1 depth2 v1 v2 p frac ndep1 ndep2).Chain' (· < ·) := by
  rw [blendVect_no_override _ _ _ _ _ _ _ _ _ hov]
  unfold blendPlain
  rw [shiftedCurve1_zero_scale _ _ _ _ _ hp, shiftedCurve2_zero_scale _ _ _ _ _ hp]
  refine chain'_lt_zipWith _
    (fun a a2 b b2 ha hb => convex_comb_lt2 frac a a2 b b2 h0 h1 ha hb) _ _ ?_ ?_
  · refine chain'_lt_map _ ?_ _ hd
    refine interpLin_strictMono _ ?_ ?_ ?_
    · rw [List.length_zip]
      simp only [List.length_map]
      omega
    · exact zip_shifted_chain_fst _ _ _ _ hc1
    · exact zip_shifted_chain_snd _ _ _ _ hv1
  · refine chain'_lt_map _ ?_ _ hd
    refine interpLin_strictMono _ ?_ ?_ ?_
    · rw [List.length_zip]
      simp only [List.length_map]
      omega
    · exact zip_shifted_chain_fst _ _ _ _ hc2
    · exact zip_shifted_chain_snd _ _ _ _ hv2

theorem rhox_mem_vtagsOf (okTau okRhox : Bool) (iv : String)
    (h : "RHOX" ∈ vtagsOf okTau okRhox iv) : iv = "RHOX" ∨ okRhox = true := by
  by_cases h1 : iv = "RHOX"
  · exact Or.inl h1
  · cases okRhox with
    | true => exact Or.inr rfl
    | false =>
      exfalso
      simp [vtagsOf, h1] at h
      exact h1 h.symm

theorem tau_mem_vtagsOf (okTau okRhox : Bool) (iv : String)
    (h : "TAU" ∈ vtagsOf okTau okRhox iv) : iv = "TAU" ∨ okTau = true := by
  by_cases h1 : iv = "TAU"
  · exact Or.inl h1
  · cases okTau with
    | true => exact Or.inr rfl
    | false =>
      exfalso
      simp [vtagsOf, h1] at h
      exact h1 h.symm


theorem tagBlend_chain' (lg pw : ℚ → ℚ) (a1 a2 : PyAtmo) (s : PairSetup) (frac : ℚ)
    (pars : ℕ → ℚ × ℚ × ℚ) (tag : String) (hpw : StrictMono pw)
    (hbv : (blendVect (outDepthScale s frac pars) s.depth1 s.depth2
      (vecSlice lg a1 tag s.itop1 s.ndep1) (vecSlice lg a2 tag s.itop2 s.ndep2)
      (pars (s.vtags.indexOf tag)) frac s.ndep1 s.ndep2).Chain' (· < ·)) :
    (tagBlend lg pw a1 a2 s frac pars tag).Chain' (· < ·) :=
  chain'_lt_map _ hpw _ hbv

theorem outVecField_chain' (lg pw : ℚ → ℚ) (a1 a2 : PyAtmo) (s : PairSetup) (frac : ℚ)
    (pars : ℕ → ℚ × ℚ × ℚ) (ndep : ℕ) (tag : String) (orig : List ℚ)
    (hochain : orig.Chain' (· < ·))
    (hbl : tag ∈ s.vtags → (tagBlend lg pw a1 a2 s frac pars tag).Chain' (· < ·)) :
    (outVecField lg pw a1 a2 s frac pars ndep tag orig).Chain' (· < ·) := by
  unfold outVecField
  split_ifs with h1m h2m
  · exact hbl h1m
  · exact List.Chain'.sublist hochain (List.take_sublist _ _)
  · exact hochain

/-- Claim C2 (amended): for every pair blend reachable from the grid
pipeline (successful setup, blend fraction in [0, 1], well-formed input
profiles) and every fit outcome (the pars oracle): all depth-indexed
vectors of the output profile have length equal to the reported ndep,
unconditionally.  The output depth vectors are moreover strictly increasing
provided the fitted scale terms stay at their fixed initial value 0 and the
endpoint override does not fire on a depth vector; without these provisos
monotonicity can fail (see the counterexample). -/
theorem C2_pair_blend_invariants
    (lg pw : ℚ → ℚ) (hlg : StrictMono lg) (hpw : StrictMono pw)
    (a1 a2 : PyAtmo) (frac : ℚ) (hfrac0 : 0 ≤ frac) (hfrac1 : frac ≤ 1)
    (interpvar : Option String) (itop : ℕ) (pars : ℕ → ℚ × ℚ × ℚ)
    (hwf1 : wellFormedB a1 = true) (hwf2 : wellFormedB a2 = true)
    (s : PairSetup) (hs : pairSetup lg a1 a2 interpvar itop = Except.ok s)
    (out : PyAtmo) (hout : pairOut lg pw a1 a2 frac interpvar itop pars = Except.ok out) :
    ((∀ v, out.rhox = some v → v.length = out.ndep) ∧
     (∀ v, out.tau = some v → v.length = out.ndep) ∧
     out.temp.length = out.ndep ∧ out.xne.length = out.ndep ∧
     out.xna.length = out.ndep ∧ out.rho.length = out.ndep) ∧
    ((∀ i, (pars i).2.2 = 0) →
     (∀ tag, tag = "RHOX" ∨ tag = "TAU" →
        overridePred (outDepthScale s frac pars) s.depth1 s.depth2
          (vecSlice lg a1 tag s.itop1 s.ndep1) (vecSlice lg a2 tag s.itop2 s.ndep2)
          (pars (s.vtags.indexOf tag)) frac s.ndep1 s.ndep2 = false) →
      (∀ v, out.rhox = some v → v.Chain' (· < ·)) ∧
      (∀ v, out.tau = some v → v.Chain' (· < ·))) := by
  obtain ⟨hiv, hvt, dv1, dv2, hdv1, hdv2, htr1, htr2, hnd1, hnd2, hdep1, hdep2⟩ :=
    pairSetup_spec lg a1 a2 interpvar itop s hs
  obtain ⟨hwr1, hwt1, htl1, hxe1, hxa1, hrh1⟩ := wellFormedB_spec a1 hwf1
  obtain ⟨hwr2, hwt2, htl2, hxe2, hxa2, hrh2⟩ := wellFormedB_spec a2 hwf2
  have hdv1s : dv1.length = a1.ndep ∧ dv1.Chain' (· < ·) := by
    rcases hiv with h | h
    · rw [h] at hdv1
      exact hwt1 dv1 hdv1
    · rw [h] at hdv1
      exact hwr1 dv1 hdv1
  have hdv2s : dv2.length = a2.ndep ∧ dv2.Chain' (· < ·) := by
    rcases hiv with h | h
    · rw [h] at hdv2
      exact hwt2 dv2 hdv2
    · rw [h] at hdv2
      exact hwr2 dv2 hdv2
  have hb2 := trimTop_ok_bounds dv2 (1 / 100) itop s.itop2 htr2
  have hnd2ge : 2 ≤ s.ndep2 := by
    rw [hnd2]
    rw [hdv2s.1] at hb2
    omega
  have hd1len : s.depth1.length = s.ndep1 := by
    rw [hdep1, sliceLog_length, hdv1s.1, hnd1]
    omega
  have hd2len : s.depth2.length = s.ndep2 := by
    rw [hdep2, sliceLog_length, hdv2s.1, hnd2]
    omega
  unfold pairOut at hout
  rw [hs] at hout
  dsimp only at hout
  by_cases hg : s.ndep1 < 2
  · rw [if_pos hg] at hout
    exact Except.noConfusion hout
  rw [if_neg hg] at hout
  cases hout
  have hdlen : (outDepthScale s frac pars).length = min s.ndep1 s.ndep2 :=
    outDepthScale_length s frac pars hd1len hd2len
  have hndle1 : (outDepthScale s frac pars).length ≤ a1.ndep := by
    rw [hdlen]
    rw [hnd1] at *
    omega
  have houtlen : ∀ tag orig, orig.length = a1.ndep →
      (outVecField lg pw a1 a2 s frac pars (outDepthScale s frac pars).length tag
        orig).length = (outDepthScale s frac pars).length := by
    intro tag orig horig
    unfold outVecField
    split_ifs with h1m h2m
    · unfold tagBlend
      rw [List.length_map, blendVect_length]
    · rw [List.length_take]
      omega
    · exact absurd (horig.trans htl1.symm) h2m
  constructor
  · refine ⟨?_, ?_, ?_, ?_, ?_, ?_⟩
    · intro v hv
      simp only [Option.map_eq_some'] at hv
      obtain ⟨orig, ha1, hfb⟩ := hv
      rw [← hfb]
      exact houtlen "RHOX" orig (hwr1 orig ha1).1
    · intro v hv
      simp only [Option.map_eq_some'] at hv
      obtain ⟨orig, ha1, hfb⟩ := hv
      rw [← hfb]
      exact houtlen "TAU" orig (hwt1 orig ha1).1
    · exact houtlen "TEMP" a1.temp htl1
    · exact houtlen "XNE" a1.xne hxe1
    · exact houtlen "XNA" a1.xna hxa1
    · exact houtlen "RHO" a1.rho hrh1
  · intro hp2 hov
    have hsc1 : s.depth1.Chain' (· < ·) := by
      rw [hdep1]
      exact sliceLog_chain' lg hlg dv1 _ _ hdv1s.2
    have hsc2 : s.depth2.Chain' (· < ·) := by
      rw [hdep2]
      exact sliceLog_chain' lg hlg dv2 _ _ hdv2s.2
    have hdchain : (outDepthScale s frac pars).Chain' (· < ·) :=
      outDepthScale_chain' s frac pars hfrac0 hfrac1 hsc1 hsc2
    have hl1 : 2 ≤ s.depth1.length := by
      rw [hd1len]
      omega
    have hl2 : 2 ≤ s.depth2.length := by
      rw [hd2len]
      exact hnd2ge
    constructor
    · intro v hv
      simp only [Option.map_eq_some'] at hv
      obtain ⟨orig, ha1, hfb⟩ := hv
      rw [← hfb]
      refine outVecField_chain' lg pw a1 a2 s frac pars _ "RHOX" orig
        (hwr1 orig ha1).2 ?_
      intro hmem
      rw [hvt] at hmem
      have ha2ex : ∃ o2, a2.rhox = some o2 := by
        rcases rhox_mem_vtagsOf _ _ _ hmem with h | h
        · rw [h] at hdv2
          exact ⟨dv2, hdv2⟩
        · simp only [Bool.and_eq_true, Option.isSome_iff_exists] at h
          exact h.2
      obtain ⟨o2, ha2⟩ := ha2ex
      have hg1 : (getVec a1 "RHOX").getD [] = orig := by
        show a1.rhox.getD [] = orig
        rw [ha1]
        rfl
      have hg2 : (getVec a2 "RHOX").getD [] = o2 := by
        show a2.rhox.getD [] = o2
        rw [ha2]
        rfl
      refine tagBlend_chain' lg pw a1 a2 s frac pars "RHOX" hpw ?_
      refine blendVect_chain' _ _ _ _ _ _ _ _ _ hfrac0 hfrac1 (hp2 _)
        (hov "RHOX" (Or.inl rfl)) hdchain hsc1 hsc2 ?_ ?_ hl1 hl2 ?_ ?_
      · unfold vecSlice
        rw [hg1]
        exact sliceLog_chain' lg hlg orig _ _ (hwr1 orig ha1).2
      · unfold vecSlice
        rw [hg2]
        exact sliceLog_chain' lg hlg o2 _ _ (hwr2 o2 ha2).2
      · unfold vecSlice
        rw [hg1, sliceLog_length, hd1len, (hwr1 orig ha1).1, hnd1]
        omega
      · unfold vecSlice
        rw [hg2, sliceLog_length, hd2len, (hwr2 o2 ha2).1, hnd2]
        omega
    · intro v hv
      simp only [Option.map_eq_some'] at hv
      obtain ⟨orig, ha1, hfb⟩ := hv
      rw [← hfb]
      refine outVecField_chain' lg pw a1 a2 s frac pars _ "TAU" orig
        (hwt1 orig ha1).2 ?_
      intro hmem
      rw [hvt] at hmem
      have ha2ex : ∃ o2, a2.tau = some o2 := by
        rcases tau_mem_vtagsOf _ _ _ hmem with h | h
        · rw [h] at hdv2
          exact ⟨dv2, hdv2⟩
        · simp only [Bool.and_eq_true, Option.isSome_iff_exists] at h
          exact h.2
      obtain ⟨o2, ha2⟩ := ha2ex
      have hg1 : (getVec a1 "TAU").getD [] = orig := by
        show a1.tau.getD [] = orig
        rw [ha1]
        rfl
      have hg2 : (getVec a2 "TAU").getD [] = o2 := by
        show a2.tau.getD [] = o2
        rw [ha2]
        rfl
      refine tagBlend_chain' lg pw a1 a2 s frac pars "TAU" hpw ?_
      refine blendVect_chain' _ _ _ _ _ _ _ _ _ hfrac0 hfrac1 (hp2 _)
        (hov "TAU" (Or.inr rfl)) hdchain hsc1 hsc2 ?_ ?_ hl1 hl2 ?_ ?_
      · unfold vecSlice
        rw [hg1]
        exact sliceLog_chain' lg hlg orig _ _ (hwt1 orig ha1).2
      · unfold vecSlice
        rw [hg2]
        exact sliceLog_chain' lg hlg o2 _ _ (hwt2 o2 ha2).2
      · unfold vecSlice
        rw [hg1, sliceLog_length, hd1len, (hwt1 orig ha1).1, hnd1]
        omega
      · unfold vecSlice
        rw [hg2, sliceLog_length, hd2len, (hwt2 o2 ha2).1, hnd2]
        omega


/-- A well-formed atmosphere with both depth vectors, for the C2 witness. -/
def wAtmo : PyAtmo :=
  { rhox := some [1, 2, 4]
    tau := some [1, 2, 4]
    temp := [1, 2, 4]
    xne := [1, 2, 4]
    xna := [1, 2, 4]
    rho := [1, 2, 4]
    abund := []
    teff := 1, logg := 1, monh := 1, vturb := 1, lonh := 1
    ndep := 3 }

/-- A fit oracle returning the initial parameters (0, 0, 0). -/
def wPars : ℕ → ℚ × ℚ × ℚ := fun _ => (0, 0, 0)

/-- The setup pairSetup computes for the witness blend. -/
def wSetup : PairSetup :=
  { iv := "RHOX", itop1 := 0, itop2 := 0, ndep1 := 3, ndep2 := 3,
    depth1 := [1, 2, 4], depth2 := [1, 2, 4],
    vtags := ["TEMP", "XNE", "XNA", "RHO", "RHOX", "TAU"] }

/-- The output profile of the witness blend (a degenerate self-blend at
fraction 0 reproduces the input). -/
def wOut : PyAtmo :=
  { rhox := some [1, 2, 4]
    tau := some [1, 2, 4]
    temp := [1, 2, 4]
    xne := [1, 2, 4]
    xna := [1, 2, 4]
    rho := [1, 2, 4]
    abund := []
    teff := 1, logg := 1, monh := 1, vturb := 1, lonh := 1
    ndep := 3 }

/-- Claim C2 witness: the amended invariants hold on a concrete self-blend
with zero shift parameters: lengths match ndep and the depth vectors stay
strictly increasing. -/
theorem C2_pair_blend_invariants_witness :
    pairOut id id wAtmo wAtmo 0 (some "RHOX") 0 wPars = Except.ok wOut ∧
    wOut.temp.length = wOut.ndep ∧
    List.Chain' (· < ·) ([1, 2, 4] : List ℚ) := by
  have hs : pairSetup id wAtmo wAtmo (some "RHOX") 0 = Except.ok wSetup :=
    eq_ok_of_toOption _ _ (by decide)
  have hout : pairOut id id wAtmo wAtmo 0 (some "RHOX") 0 wPars = Except.ok wOut :=
    eq_ok_of_toOption _ _ (by decide)
  have h := C2_pair_blend_invariants id id strictMono_id strictMono_id wAtmo wAtmo 0
    (by norm_num) (by norm_num) (some "RHOX") 0 wPars (by decide) (by decide)
    wSetup hs wOut hout
  have hchain := (h.2 (fun i => rfl)
    (fun tag htag => by rcases htag with h2 | h2 <;> subst h2 <;> decide)).2
    [1, 2, 4] (by decide)
  exact ⟨hout, h.1.2.2.1, hchain⟩

/-- The input profile of the C2 counterexample: monotone depth vectors, a
TAU profile with a steep lower section. -/
def cexA : PyAtmo :=
  { rhox := some [5, 6, 7]
    tau := some [0, 1, 10]
    temp := [5, 6, 7]
    xne := [5, 6, 7]
    xna := [5, 6, 7]
    rho := [5, 6, 7]
    abund := []
    teff := 1, logg := 1, monh := 1, vturb := 1, lonh := 1
    ndep := 3 }

/-- A fit outcome with horizontal shift 1 and scale term 6 (reachable since
the port leaves all four parameters free; see claim C3). -/
def cexPars : ℕ → ℚ × ℚ × ℚ := fun _ => (1, 0, 6)

/-- Claim C2 counterexample: on a well-formed input pair with blend fraction
1/2 inside [0, 1], the pair blend that interp_atmo_grid performs produces an
atmosphere whose TAU depth vector is [6, 3, 4] — not monotonic — for this
fit outcome.  The claimed invariant therefore does not hold for every valid
in-grid target and every fit result; only the length/ndep part is
unconditional. -/
theorem C2_pair_blend_invariants_counterexample :
    ((pairOut id id cexA cexA (1 / 2) (some "RHOX") 0 cexPars).toOption.map PyAtmo.tau) =
      some (some [6, 3, 4]) ∧
    ¬ List.Chain' (· < ·) ([6, 3, 4] : List ℚ) ∧
    wellFormedB cexA = true ∧ (0 : ℚ) ≤ 1 / 2 ∧ (1 / 2 : ℚ) ≤ 1 := by
  refine ⟨by decide, ?_, by decide, by decide, by decide⟩
  rw [← chainLtB_iff]
  decide

end RatEval

end SMEInterp
